import Mathlib

set_option maxRecDepth 40000

/-!
Verification of the sshpod core against its specification.

The Rust sources are embedded shallowly: pure string processing is
modelled on `List Char` (with structural recursion so everything is
executable and kernel-reducible), fallible functions return `Except`,
and remote/asynchronous effects (kubectl invocations) are modelled by
explicit oracle parameters describing the outcome of each external call.
-/

namespace Sshpod

/-! ## Basic character-list utilities (Rust `str` operations) -/

/-- Split a character list on a separator character, mirroring Rust
`str::split(c)`: always returns at least one (possibly empty) piece. -/
def splitOnChar (c : Char) : List Char → List (List Char)
  | [] => [[]]
  | x :: xs =>
    match splitOnChar c xs with
    | [] => [[]]
    | r :: rs => if x = c then [] :: r :: rs else (x :: r) :: rs

/-- `startsWithSeq p s` is Rust `s.starts_with(p)` on char lists. -/
def startsWithSeq : List Char → List Char → Bool
  | [], _ => true
  | _ :: _, [] => false
  | p :: ps, x :: xs => p = x && startsWithSeq ps xs

/-- `containsSeq p s` is Rust `s.contains(p)` on char lists. -/
def containsSeq (p : List Char) : List Char → Bool
  | [] => startsWithSeq p []
  | x :: xs => startsWithSeq p (x :: xs) || containsSeq p xs

/-- Rust `s.ends_with(p)` on char lists. -/
def endsWithSeq (p s : List Char) : Bool :=
  startsWithSeq p.reverse s.reverse

/-- Rust `str::strip_suffix`: remove a literal suffix if present. -/
def stripSuffixSeq (p s : List Char) : Option (List Char) :=
  if endsWithSeq p s then some (s.take (s.length - p.length)) else none

/-- Rust `str::trim_end_matches('.')`. -/
def trimEndDots (s : List Char) : List Char :=
  (s.reverse.dropWhile (fun c => c = '.')).reverse

/-! ## Hostname parser (`src/hostspec.rs`) -/

/-- `Target` from hostspec.rs. -/
inductive Target where
  | pod (name : String)
  | deployment (name : String)
  | job (name : String)
deriving DecidableEq, Repr

/-- `HostSpec` from hostspec.rs.  The Rust field `namespace` is called
`nspace` here because `namespace` is a Lean keyword. -/
structure HostSpec where
  context : Option String
  nspace : Option String
  target : Target
  container : Option String
deriving DecidableEq, Repr

/-- `HostSpecError` from hostspec.rs. -/
inductive HostSpecError where
  | missingSuffix
  | missingSeparator (segment : String)
  | invalidFormat
deriving DecidableEq, Repr

def sepSeq : List Char := "--".data
def suffixSshpod : List Char := ".sshpod".data
def pfxContainer : List Char := "container--".data
def pfxNamespace : List Char := "namespace--".data
def pfxContext : List Char := "context--".data
def pfxPod : List Char := "pod--".data
def pfxDeployment : List Char := "deployment--".data
def pfxJob : List Char := "job--".data

/-- `parse_target` from hostspec.rs. -/
def parse_target (token : List Char) : Except HostSpecError Target :=
  if token = [] then .error .invalidFormat
  else if startsWithSeq pfxPod token then
    if token.drop pfxPod.length = [] then .error .invalidFormat
    else .ok (.pod ⟨token.drop pfxPod.length⟩)
  else if startsWithSeq pfxDeployment token then
    if token.drop pfxDeployment.length = [] then .error .invalidFormat
    else .ok (.deployment ⟨token.drop pfxDeployment.length⟩)
  else if startsWithSeq pfxJob token then
    if token.drop pfxJob.length = [] then .error .invalidFormat
    else .ok (.job ⟨token.drop pfxJob.length⟩)
  else .error .invalidFormat

/-- The mutable loop state of `parse` (lines 36-39 of hostspec.rs). -/
structure ParseState where
  container : Option String
  nspace : Option String
  context : Option String
  target : Option Target
deriving DecidableEq, Repr

def initState : ParseState := ⟨none, none, none, none⟩

/-- One iteration of the token loop in `parse` (hostspec.rs lines 41-73). -/
def parseStep (st : ParseState) (token : List Char) :
    Except HostSpecError ParseState :=
  if ¬ containsSeq sepSeq token then
    .error (.missingSeparator ⟨token⟩)
  else if startsWithSeq pfxContainer token then
    if token.drop pfxContainer.length = [] ∨ st.container.isSome then .error .invalidFormat
    else .ok { st with container := some ⟨token.drop pfxContainer.length⟩ }
  else if startsWithSeq pfxNamespace token then
    if token.drop pfxNamespace.length = [] ∨ st.nspace.isSome then .error .invalidFormat
    else .ok { st with nspace := some ⟨token.drop pfxNamespace.length⟩ }
  else if startsWithSeq pfxContext token then
    if token.drop pfxContext.length = [] ∨ st.context.isSome then .error .invalidFormat
    else .ok { st with context := some ⟨token.drop pfxContext.length⟩ }
  else if st.target = none then
    (parse_target token).map (fun t => { st with target := some t })
  else .error .invalidFormat

def parseLoop : List (List Char) → ParseState → Except HostSpecError ParseState
  | [], st => .ok st
  | t :: ts, st =>
    match parseStep st t with
    | .error e => .error e
    | .ok st2 => parseLoop ts st2

/-- The suffix stripping and tokenisation of `parse` (hostspec.rs
lines 31-41): `none` when the `.sshpod` suffix is absent, otherwise the
non-empty dot-separated tokens. -/
def hostTokens (host : String) : Option (List (List Char)) :=
  (stripSuffixSeq suffixSshpod (trimEndDots host.data)).map
    (fun body => (splitOnChar '.' body).filter (fun t => t ≠ []))

/-- `parse` from hostspec.rs. -/
def parse (host : String) : Except HostSpecError HostSpec :=
  match hostTokens host with
  | none => .error .missingSuffix
  | some toks =>
    match parseLoop toks initState with
    | .error e => .error e
    | .ok st =>
      match st.target with
      | none => .error .invalidFormat
      | some tg => .ok ⟨st.context, st.nspace, tg, st.container⟩

/-! ## Analysis of the token loop

The loop in `parse` fills four `Option` slots.  To reason about it we
extract, per token list, the bodies each kind of token contributes. -/

/-- Bodies of `container--` tokens, in order. -/
def cBodies (ts : List (List Char)) : List String :=
  ts.filterMap fun t =>
    if startsWithSeq pfxContainer t then some ⟨t.drop pfxContainer.length⟩ else none

/-- Bodies of `namespace--` tokens, in order. -/
def nBodies (ts : List (List Char)) : List String :=
  ts.filterMap fun t =>
    if startsWithSeq pfxNamespace t then some ⟨t.drop pfxNamespace.length⟩ else none

/-- Bodies of `context--` tokens, in order. -/
def xBodies (ts : List (List Char)) : List String :=
  ts.filterMap fun t =>
    if startsWithSeq pfxContext t then some ⟨t.drop pfxContext.length⟩ else none

/-- Successfully parsed target tokens, in order. -/
def tVals (ts : List (List Char)) : List Target :=
  ts.filterMap fun t => (parse_target t).toOption

/-- A token the loop accepts: it contains `--` and is a recognized
prefix with a non-empty body. -/
def goodTok (t : List Char) : Bool :=
  containsSeq sepSeq t &&
    (if startsWithSeq pfxContainer t then !(t.drop pfxContainer.length).isEmpty
     else if startsWithSeq pfxNamespace t then !(t.drop pfxNamespace.length).isEmpty
     else if startsWithSeq pfxContext t then !(t.drop pfxContext.length).isEmpty
     else (parse_target t).toOption.isSome)

/-- `fill s l` : starting from slot `s`, insert the elements of `l`
one by one where a second insertion fails; `some` of the final slot if
no conflict arises. -/
def fill {α : Type} : Option α → List α → Option (Option α)
  | s, [] => some s
  | none, b :: bs =>
    match bs with
    | [] => some (some b)
    | _ :: _ => none
  | some _, _ :: _ => none

/-- The six recognized token prefixes. -/
def knownPfxList : List (List Char) :=
  [pfxContainer, pfxNamespace, pfxContext, pfxPod, pfxDeployment, pfxJob]

/-- A token that starts with none of the six recognized prefixes
(the spec's "a token matching none of the known prefixes"). -/
def noKnownTok (t : List Char) : Bool :=
  !(startsWithSeq pfxContainer t || startsWithSeq pfxNamespace t ||
    startsWithSeq pfxContext t || startsWithSeq pfxPod t ||
    startsWithSeq pfxDeployment t || startsWithSeq pfxJob t)

/-- A token that is a recognized prefix with an empty body. -/
def emptyBodyTok (t : List Char) : Bool :=
  (startsWithSeq pfxContainer t && (t.drop pfxContainer.length).isEmpty) ||
  (startsWithSeq pfxNamespace t && (t.drop pfxNamespace.length).isEmpty) ||
  (startsWithSeq pfxContext t && (t.drop pfxContext.length).isEmpty) ||
  (startsWithSeq pfxPod t && (t.drop pfxPod.length).isEmpty) ||
  (startsWithSeq pfxDeployment t && (t.drop pfxDeployment.length).isEmpty) ||
  (startsWithSeq pfxJob t && (t.drop pfxJob.length).isEmpty)

/-- Number of tokens starting with a given prefix. -/
def countStart (p : List Char) (ts : List (List Char)) : Nat :=
  (ts.filter fun t => startsWithSeq p t).length

/-- Number of target tokens (`pod--`/`deployment--`/`job--`). -/
def targetCount (ts : List (List Char)) : Nat :=
  (ts.filter fun t =>
    startsWithSeq pfxPod t || startsWithSeq pfxDeployment t ||
    startsWithSeq pfxJob t).length

def isErr {ε α : Type} : Except ε α → Bool
  | .error _ => true
  | .ok _ => false

/-- The failure condition exactly as the claim words it, with "a prefix
occurs twice" read literally (per single prefix). -/
def claimFailB (host : String) : Bool :=
  match hostTokens host with
  | none => true
  | some ts =>
    ts.any (fun t => !containsSeq sepSeq t) ||
    ts.any noKnownTok ||
    ts.any emptyBodyTok ||
    knownPfxList.any (fun p => decide (2 ≤ countStart p ts)) ||
    decide (targetCount ts = 0)

/-! ## Orchestrator adapter (`src/kubectl.rs`) -/

/-- `PodCondition` from kubectl.rs (Rust field `type` is `type_name`). -/
structure PodCondition where
  type_name : String
  status : String
deriving DecidableEq, Repr

/-- `PodStatus` from kubectl.rs. -/
structure PodStatus where
  phase : Option String
  conditions : Option (List PodCondition)
deriving DecidableEq, Repr

/-- `PodMetadataName` from kubectl.rs. -/
structure PodMetadataName where
  name : String
deriving DecidableEq, Repr

/-- `PodListItem` from kubectl.rs. -/
structure PodListItem where
  metadata : PodMetadataName
  status : Option PodStatus
deriving DecidableEq, Repr

/-- `is_ready` from kubectl.rs (lines 418-434). -/
def is_ready (pod : PodListItem) : Bool :=
  if ((pod.status.bind fun s => s.phase).map fun p => p == "Running") ≠ some true then
    false
  else
    match pod.status.bind fun s => s.conditions with
    | some conds => conds.any fun c => c.type_name == "Ready" && c.status == "True"
    | none => false

/-- `is_running` from kubectl.rs (lines 436-442). -/
def is_running (pod : PodListItem) : Bool :=
  ((pod.status.bind fun s => s.phase).map fun p => p == "Running").getD false

/-- `select_pod` from kubectl.rs (lines 347-382), applied to the pod
list the orchestrator returned for the selector; the kubectl fetch is
an external effect, represented by the `pods` argument. -/
def select_pod (pods : List PodListItem) (kind selector nspace : String) :
    Except String String :=
  if pods.isEmpty then
    .error ("no pods found for " ++ kind ++ " selector `" ++ selector ++
      "` in namespace " ++ nspace)
  else
    match (pods.find? is_ready).orElse fun _ =>
        (pods.find? is_running).orElse fun _ => pods.head? with
    | some p => .ok p.metadata.name
    | none =>
      .error ("no suitable pods found for " ++ kind ++ " selector `" ++
        selector ++ "` in namespace " ++ nspace)

/-- Readiness as the claim words it: phase `Running` and a condition of
type `Ready` with status `True`. -/
def isReadySpec (pod : PodListItem) : Bool :=
  match pod.status with
  | none => false
  | some st =>
    st.phase == some "Running" &&
      (st.conditions.getD []).any fun c => c.type_name == "Ready" && c.status == "True"

/-- Running as the claim words it: phase `Running`. -/
def isRunningSpec (pod : PodListItem) : Bool :=
  match pod.status with
  | none => false
  | some st => st.phase == some "Running"

/-- The selection rule as the claim words it: the first Ready pod, else
the first Running pod, else the first item; the empty list errors. -/
def selectSpec (pods : List PodListItem) (kind selector nspace : String) :
    Except String String :=
  match pods with
  | [] => .error ("no pods found for " ++ kind ++ " selector `" ++ selector ++
      "` in namespace " ++ nspace)
  | p :: _ =>
    .ok (((pods.find? isReadySpec).getD
      ((pods.find? isRunningSpec).getD p)).metadata.name)

/-- Rust `Vec::join` / separator-interleaved concatenation. -/
def joinSep (sep : String) : List String → String
  | [] => ""
  | [x] => x
  | x :: xs => x ++ sep ++ joinSep sep xs

/-- `MatchExpression` from kubectl.rs. -/
structure MatchExpression where
  key : String
  operator : String
  values : List String
deriving DecidableEq, Repr

/-- `LabelSelector` from kubectl.rs; `match_labels` is a `HashMap` in
Rust and is modelled as an association list in iteration order, so that
order-dependence can be quantified over. -/
structure LabelSelector where
  match_labels : List (String × String)
  match_expressions : List MatchExpression
deriving DecidableEq, Repr

/-- The body of the `matchExpressions` loop in `to_selector`
(kubectl.rs lines 389-410). -/
def renderExpr (expr : MatchExpression) : Except String String :=
  if expr.operator = "In" then
    if expr.values.isEmpty then .error "matchExpressions In requires values"
    else .ok (expr.key ++ " in (" ++ joinSep "," expr.values ++ ")")
  else if expr.operator = "NotIn" then
    if expr.values.isEmpty then .error "matchExpressions NotIn requires values"
    else .ok (expr.key ++ " notin (" ++ joinSep "," expr.values ++ ")")
  else if expr.operator = "Exists" then .ok expr.key
  else if expr.operator = "DoesNotExist" then .ok ("!" ++ expr.key)
  else .error ("unsupported matchExpression operator: " ++ expr.operator)

/-- The `matchExpressions` loop with its early bail. -/
def renderExprs : List MatchExpression → Except String (List String)
  | [] => .ok []
  | expr :: rest =>
    match renderExpr expr with
    | .error e => .error e
    | .ok part =>
      match renderExprs rest with
      | .error e => .error e
      | .ok ps => .ok (part :: ps)

/-- `to_selector` from kubectl.rs (lines 384-416). -/
def to_selector (sel : LabelSelector) : Except String String :=
  match renderExprs sel.match_expressions with
  | .error e => .error e
  | .ok eps =>
    match (sel.match_labels.map fun kv => kv.1 ++ "=" ++ kv.2) ++ eps with
    | [] => .error "label selector is empty"
    | parts => .ok (joinSep "," parts)

/-! ## SSH-config merger (`src/install.rs`) -/

def START_MARKER : String := "# >>> sshpod start"
def END_MARKER : String := "# <<< sshpod end"

/-- ASCII whitespace, standing in for Rust `char::is_whitespace` (the
markers and blank-line trim only involve ASCII whitespace). -/
def isWs (c : Char) : Bool := c = ' ' || c = '\t' || c = '\r' || c = '\n'

/-- Rust `str::trim` (ASCII). -/
def trimStr (s : String) : String :=
  ⟨((s.data.dropWhile isWs).reverse.dropWhile isWs).reverse⟩

/-- Rust `str::trim_end` (ASCII). -/
def rustTrimEnd (s : String) : String :=
  ⟨(s.data.reverse.dropWhile isWs).reverse⟩

/-- One piece of Rust `str::lines`: a line terminated by LF loses one
trailing CR. -/
def stripCr (l : List Char) : List Char :=
  if l.getLast? = some '\r' then l.dropLast else l

/-- Lines from LF-split pieces: every piece but the last was terminated
by an LF and loses one trailing CR; a final empty piece (trailing LF)
is dropped, a final non-empty piece is kept verbatim. -/
def linesOfPieces (ps : List (List Char)) : List String :=
  match ps.getLast? with
  | none => ps.dropLast.map fun l => (⟨stripCr l⟩ : String)
  | some last =>
    if last = [] then ps.dropLast.map fun l => (⟨stripCr l⟩ : String)
    else (ps.dropLast.map fun l => (⟨stripCr l⟩ : String)) ++ [⟨last⟩]

/-- Rust `str::lines`: split at LF, dropping the final empty piece of a
trailing LF; only a CR directly before an LF is removed. -/
def rustLines (s : String) : List String :=
  if s.data = [] then [] else linesOfPieces (splitOnChar '\n' s.data)

/-- The marker-skipping loop of `merge_config` (install.rs lines 90-104). -/
def keptLines (skipping : Bool) : List String → List String
  | [] => []
  | l :: ls =>
    if trimStr l = START_MARKER then keptLines true ls
    else if skipping then
      if trimStr l = END_MARKER then keptLines false ls else keptLines true ls
    else l :: keptLines skipping ls

/-- `line.trim().is_empty()`. -/
def isBlank (l : String) : Bool := trimStr l == ""

/-- The trailing-blank-line pop of `merge_config` (install.rs 106-108). -/
def dropTrailingBlanks (ls : List String) : List String :=
  (ls.reverse.dropWhile isBlank).reverse

/-- The reassembly of `merge_config` (install.rs lines 110-117). -/
def buildMerged (kept : List String) (block : String) : String :=
  (if kept.isEmpty then "" else joinSep "\n" kept ++ "\n\n") ++
    rustTrimEnd block ++ "\n"

/-- `merge_config` from install.rs. -/
def merge_config (current block : String) : String :=
  buildMerged (dropTrailingBlanks (keptLines false (rustLines current))) block

/-- `render_block` from install.rs. -/
def render_block : String :=
  START_MARKER ++ "\n" ++
  "Host *.sshpod\n" ++
  "  ProxyCommand ~/.local/bin/sshpod proxy --host %h --user %r --port %p\n" ++
  "  StrictHostKeyChecking no\n" ++
  "  UserKnownHostsFile /dev/null\n" ++
  "  GlobalKnownHostsFile /dev/null\n" ++
  "  CheckHostIP no\n" ++
  "  IdentityFile ~/.cache/sshpod/id_ed25519\n" ++
  "  IdentitiesOnly yes\n" ++
  "  BatchMode yes\n" ++
  "  ForwardAgent yes\n" ++
  END_MARKER ++ "\n"

/-- Number of positions at which `pat` occurs as a contiguous run. -/
def countRuns (pat : List String) : List String → Nat
  | [] => if pat.isEmpty then 1 else 0
  | l :: ls => (if pat.isPrefixOf (l :: ls) then 1 else 0) + countRuns pat ls

/-! ## Bundle stager (`src/bundle.rs`) -/

/-- Modelled from the spec: the helper's package version (compiled in
from the build manifest, which is outside the sources); none of the
claims depend on its value. -/
def CARGO_PKG_VERSION : String := "0.1.0"

/-- `BUNDLE_VERSION` from bundle.rs. -/
def BUNDLE_VERSION : String := CARGO_PKG_VERSION ++ "+sshd1"

/-- Oracle for the external effects `ensure_bundle` performs: the two
remote marker probes, tool availability probes, the three remote
install commands, and the local xz decompression of the bundle bytes. -/
structure BundleEnv where
  remoteVersion : Option String
  remoteArch : Option String
  xzAvail : Bool
  gzAvail : Bool
  xzInstall : Except String Unit
  gzInstall : Except String Unit
  plainInstall : Except String Unit
  xzDecompress : Except String (List Nat)

/-- `ensure_plain_data` from bundle.rs (lines 122-130): state-passing
rendering of the `&mut Option<Vec<u8>>` cache. -/
def ensure_plain_data (decompress : Except String (List Nat))
    (cache : Option (List Nat)) : Except String (List Nat × Option (List Nat)) :=
  match cache with
  | some v => .ok (v, some v)
  | none =>
    match decompress with
    | .error e => .error e
    | .ok b => .ok (b, some b)

/-- `try_install_xz` from bundle.rs (lines 138-148). -/
def try_install_xz (env : BundleEnv) : Except String Unit :=
  if !env.xzAvail then .error "xz not available in container"
  else env.xzInstall

/-- `try_install_gzip` from bundle.rs (lines 150-163), returning the
attempt outcome together with the (possibly filled) cache. -/
def try_install_gzip (env : BundleEnv) (cache : Option (List Nat)) :
    Except String Unit × Option (List Nat) :=
  if !env.gzAvail then (.error "gzip not available in container", cache)
  else
    match ensure_plain_data env.xzDecompress cache with
    | .error e => (.error e, cache)
    | .ok (_, c2) => (env.gzInstall, c2)

/-- `ensure_bundle` from bundle.rs (lines 30-97); anyhow contexts are
rendered as `"context: cause"`, matching the `error: {:#}` output of
main.rs. -/
def ensure_bundle (env : BundleEnv) (base arch : String) : Except String Unit :=
  if env.remoteVersion == some BUNDLE_VERSION && env.remoteArch == some arch then
    .ok ()
  else
    match try_install_xz env with
    | .ok _ => .ok ()
    | .error xz_err =>
      match try_install_gzip env none with
      | (.ok _, _) => .ok ()
      | (.error gzip_err, cache1) =>
        match ensure_plain_data env.xzDecompress cache1 with
        | .error e =>
          .error ("failed to prepare sshd payload for plain install: " ++ e)
        | .ok _ =>
          match env.plainInstall with
          | .ok _ => .ok ()
          | .error e =>
            .error ("failed to install bundle into " ++ base ++
              " (xz: " ++ xz_err ++ "; gzip: " ++ gzip_err ++ "): " ++ e)

/-! ## Target resolution (`src/proxy.rs`) -/

/-- The namespace-filling logic of `resolve_remote_target` (proxy.rs
lines 27-37); `ctxDefault` is the oracle for the success value of
`kubectl::get_context_namespace`. -/
def resolve_namespace (hostNs hostCtx : Option String)
    (ctxDefault : String → Option String) : String :=
  match hostNs with
  | some ns => ns
  | none =>
    match hostCtx with
    | some ctx => (ctxDefault ctx).getD ""
    | none => (ctxDefault "default").getD ""

/-- The namespace-filling rule exactly as the claim words it: the
HostSpec namespace, else the default namespace of the HostSpec's
context, else empty. -/
def resolve_namespace_claimed (hostNs hostCtx : Option String)
    (ctxDefault : String → Option String) : String :=
  match hostNs with
  | some ns => ns
  | none =>
    match hostCtx with
    | some ctx => (ctxDefault ctx).getD ""
    | none => ""

/-- The amended rule: the HostSpec namespace, else the default
namespace of the HostSpec's context — where a missing context means the
context literally named "default" — else empty. -/
def resolve_namespace_spec (hostNs hostCtx : Option String)
    (ctxDefault : String → Option String) : String :=
  match hostNs with
  | some ns => ns
  | none => (ctxDefault (hostCtx.getD "default")).getD ""

theorem fill_none_cons {α : Type} (b : α) (l : List α) :
    fill none (b :: l) = fill (some b) l := by
  cases l <;> rfl

theorem fill_some_cons {α : Type} (a b : α) (l : List α) :
    fill (some a) (b :: l) = none := rfl

/-! Correspondence between the Bool string tests and Mathlib's list
ordering relations. -/

theorem startsWithSeq_iff (p s : List Char) :
    startsWithSeq p s = true ↔ p <+: s := by
  induction p generalizing s with
  | nil => simp [startsWithSeq]
  | cons a ps ih =>
    cases s with
    | nil => simp [startsWithSeq]
    | cons b ss =>
      have h : startsWithSeq (a :: ps) (b :: ss) =
          (decide (a = b) && startsWithSeq ps ss) := rfl
      rw [h, Bool.and_eq_true, decide_eq_true_iff, ih, List.cons_prefix_cons]

theorem containsSeq_iff (p s : List Char) :
    containsSeq p s = true ↔ p <:+: s := by
  induction s with
  | nil =>
    have h : containsSeq p [] = startsWithSeq p [] := rfl
    rw [h, startsWithSeq_iff, List.prefix_nil, List.infix_nil]
  | cons a ss ih =>
    have h : containsSeq p (a :: ss) =
        (startsWithSeq p (a :: ss) || containsSeq p ss) := rfl
    rw [h, Bool.or_eq_true, startsWithSeq_iff, ih, List.infix_cons_iff]

theorem startsWith_disjoint {p q t : List Char}
    (h : startsWithSeq p t = true)
    (hpq : ¬ p <+: q) (hqp : ¬ q <+: p) :
    startsWithSeq q t = false := by
  by_contra hq
  rw [Bool.not_eq_false, startsWithSeq_iff] at hq
  rw [startsWithSeq_iff] at h
  rcases List.prefix_or_prefix_of_prefix h hq with h1 | h1
  · exact hpq h1
  · exact hqp h1

theorem contains_of_startsWith {p q t : List Char}
    (h : startsWithSeq p t = true) (hin : containsSeq q p = true) :
    containsSeq q t = true := by
  rw [startsWithSeq_iff] at h
  rw [containsSeq_iff] at hin ⊢
  exact hin.trans h.isInfix

/-- A token starting with `container--` fails `parse_target` and starts
with none of the other prefixes. -/
theorem container_tok_facts {t : List Char}
    (h : startsWithSeq pfxContainer t = true) :
    startsWithSeq pfxNamespace t = false ∧
    startsWithSeq pfxContext t = false ∧
    parse_target t = .error .invalidFormat ∧
    containsSeq sepSeq t = true := by
  have hn := startsWith_disjoint h (q := pfxNamespace) (by decide) (by decide)
  have hx := startsWith_disjoint h (q := pfxContext) (by decide) (by decide)
  have hp := startsWith_disjoint h (q := pfxPod) (by decide) (by decide)
  have hd := startsWith_disjoint h (q := pfxDeployment) (by decide) (by decide)
  have hj := startsWith_disjoint h (q := pfxJob) (by decide) (by decide)
  have hne : t ≠ [] := by
    intro he; subst he; simp [startsWithSeq, pfxContainer] at h
  refine ⟨hn, hx, ?_, contains_of_startsWith h (by decide)⟩
  unfold parse_target
  simp [hp, hd, hj, hne]

/-- A token starting with `namespace--` fails `parse_target` and does
not start with `context--`. -/
theorem nspace_tok_facts {t : List Char}
    (h : startsWithSeq pfxNamespace t = true) :
    startsWithSeq pfxContext t = false ∧
    parse_target t = .error .invalidFormat ∧
    containsSeq sepSeq t = true := by
  have hx := startsWith_disjoint h (q := pfxContext) (by decide) (by decide)
  have hp := startsWith_disjoint h (q := pfxPod) (by decide) (by decide)
  have hd := startsWith_disjoint h (q := pfxDeployment) (by decide) (by decide)
  have hj := startsWith_disjoint h (q := pfxJob) (by decide) (by decide)
  have hne : t ≠ [] := by
    intro he; subst he; simp [startsWithSeq, pfxNamespace] at h
  refine ⟨hx, ?_, contains_of_startsWith h (by decide)⟩
  unfold parse_target
  simp [hp, hd, hj, hne]

/-- A token starting with `context--` fails `parse_target`. -/
theorem context_tok_facts {t : List Char}
    (h : startsWithSeq pfxContext t = true) :
    parse_target t = .error .invalidFormat ∧
    containsSeq sepSeq t = true := by
  have hp := startsWith_disjoint h (q := pfxPod) (by decide) (by decide)
  have hd := startsWith_disjoint h (q := pfxDeployment) (by decide) (by decide)
  have hj := startsWith_disjoint h (q := pfxJob) (by decide) (by decide)
  have hne : t ≠ [] := by
    intro he; subst he; simp [startsWithSeq, pfxContext] at h
  refine ⟨?_, contains_of_startsWith h (by decide)⟩
  unfold parse_target
  simp [hp, hd, hj, hne]

/-- `parse_target` can fail only with `invalidFormat`. -/
theorem parse_target_error_eq {t : List Char} {e : HostSpecError}
    (h : parse_target t = .error e) : e = .invalidFormat := by
  unfold parse_target at h
  repeat' split at h
  all_goals first
  | exact (Except.error.inj h).symm
  | exact absurd h (by simp)

theorem cBodies_cons_pos {t : List Char} {ts : List (List Char)}
    (h : startsWithSeq pfxContainer t = true) :
    cBodies (t :: ts) = (⟨t.drop pfxContainer.length⟩ : String) :: cBodies ts := by
  simp [cBodies, List.filterMap_cons, h]

theorem cBodies_cons_neg {t : List Char} {ts : List (List Char)}
    (h : startsWithSeq pfxContainer t = false) :
    cBodies (t :: ts) = cBodies ts := by
  simp [cBodies, List.filterMap_cons, h]

theorem nBodies_cons_pos {t : List Char} {ts : List (List Char)}
    (h : startsWithSeq pfxNamespace t = true) :
    nBodies (t :: ts) = (⟨t.drop pfxNamespace.length⟩ : String) :: nBodies ts := by
  simp [nBodies, List.filterMap_cons, h]

theorem nBodies_cons_neg {t : List Char} {ts : List (List Char)}
    (h : startsWithSeq pfxNamespace t = false) :
    nBodies (t :: ts) = nBodies ts := by
  simp [nBodies, List.filterMap_cons, h]

theorem xBodies_cons_pos {t : List Char} {ts : List (List Char)}
    (h : startsWithSeq pfxContext t = true) :
    xBodies (t :: ts) = (⟨t.drop pfxContext.length⟩ : String) :: xBodies ts := by
  simp [xBodies, List.filterMap_cons, h]

theorem xBodies_cons_neg {t : List Char} {ts : List (List Char)}
    (h : startsWithSeq pfxContext t = false) :
    xBodies (t :: ts) = xBodies ts := by
  simp [xBodies, List.filterMap_cons, h]

theorem tVals_cons_ok {t : List Char} {ts : List (List Char)} {tg : Target}
    (h : parse_target t = .ok tg) :
    tVals (t :: ts) = tg :: tVals ts := by
  simp [tVals, List.filterMap_cons, h, Except.toOption]

theorem tVals_cons_err {t : List Char} {ts : List (List Char)} {e : HostSpecError}
    (h : parse_target t = .error e) :
    tVals (t :: ts) = tVals ts := by
  simp [tVals, List.filterMap_cons, h, Except.toOption]

/-- Full characterization of the token loop: it succeeds exactly when
every token is acceptable and each slot receives at most one value (the
final slot contents being start value plus the at-most-one new body). -/
theorem parseLoop_ok_iff (ts : List (List Char)) :
    ∀ st st2 : ParseState, parseLoop ts st = .ok st2 ↔
      ((∀ t ∈ ts, goodTok t = true) ∧
       fill st.container (cBodies ts) = some st2.container ∧
       fill st.nspace (nBodies ts) = some st2.nspace ∧
       fill st.context (xBodies ts) = some st2.context ∧
       fill st.target (tVals ts) = some st2.target) := by
  induction ts with
  | nil =>
    intro st st2
    obtain ⟨c, n, x, tg⟩ := st
    obtain ⟨c2, n2, x2, tg2⟩ := st2
    simp [parseLoop, cBodies, nBodies, xBodies, tVals, fill, ParseState.mk.injEq]
  | cons t ts ih =>
    intro st st2
    obtain ⟨c, n, x, tg⟩ := st
    by_cases hsep : containsSeq sepSeq t = true
    · by_cases hc : startsWithSeq pfxContainer t = true
      · -- container-- token
        obtain ⟨hn, hx, hpt, -⟩ := container_tok_facts hc
        by_cases hr : t.drop pfxContainer.length = []
        · have hstep : parseStep ⟨c, n, x, tg⟩ t = .error .invalidFormat := by
            simp [parseStep, hsep, hc, hr]
          have hgood : goodTok t = false := by
            simp [goodTok, hc, hr]
          simp only [parseLoop, hstep]
          apply iff_of_false
          · simp
          · rintro ⟨hall, -⟩
            have h := hall t (List.mem_cons_self t ts)
            rw [hgood] at h; cases h
        · cases c with
          | some a =>
            have hstep : parseStep ⟨some a, n, x, tg⟩ t = .error .invalidFormat := by
              simp [parseStep, hsep, hc, hr]
            simp only [parseLoop, hstep]
            apply iff_of_false
            · simp
            · rintro ⟨-, hfill, -⟩
              rw [cBodies_cons_pos hc] at hfill
              exact absurd hfill (by simp [fill_some_cons])
          | none =>
            have hstep : parseStep ⟨none, n, x, tg⟩ t =
                .ok ⟨some ⟨t.drop pfxContainer.length⟩, n, x, tg⟩ := by
              simp [parseStep, hsep, hc, hr]
            have hgood : goodTok t = true := by
              simp [goodTok, hsep, hc, List.isEmpty_iff, hr]
            simp only [parseLoop, hstep]
            rw [ih]
            simp only [cBodies_cons_pos hc, nBodies_cons_neg hn, xBodies_cons_neg hx,
              tVals_cons_err hpt, fill_none_cons]
            constructor
            · rintro ⟨hall, h1, h2, h3, h4⟩
              refine ⟨?_, h1, h2, h3, h4⟩
              intro u hu
              rcases List.mem_cons.mp hu with h | h
              · exact h ▸ hgood
              · exact hall u h
            · rintro ⟨hall, h1, h2, h3, h4⟩
              exact ⟨fun u hu => hall u (List.mem_cons_of_mem _ hu), h1, h2, h3, h4⟩
      · have hc' : startsWithSeq pfxContainer t = false := by simpa using hc
        by_cases hnn : startsWithSeq pfxNamespace t = true
        · -- namespace-- token
          obtain ⟨hx, hpt, -⟩ := nspace_tok_facts hnn
          by_cases hr : t.drop pfxNamespace.length = []
          · have hstep : parseStep ⟨c, n, x, tg⟩ t = .error .invalidFormat := by
              simp [parseStep, hsep, hc, hnn, hr]
            have hgood : goodTok t = false := by
              simp [goodTok, hc', hnn, hr]
            simp only [parseLoop, hstep]
            apply iff_of_false
            · simp
            · rintro ⟨hall, -⟩
              have h := hall t (List.mem_cons_self t ts)
              rw [hgood] at h; cases h
          · cases n with
            | some a =>
              have hstep : parseStep ⟨c, some a, x, tg⟩ t = .error .invalidFormat := by
                simp [parseStep, hsep, hc, hnn, hr]
              simp only [parseLoop, hstep]
              apply iff_of_false
              · simp
              · rintro ⟨-, -, hfill, -⟩
                rw [nBodies_cons_pos hnn] at hfill
                exact absurd hfill (by simp [fill_some_cons])
            | none =>
              have hstep : parseStep ⟨c, none, x, tg⟩ t =
                  .ok ⟨c, some ⟨t.drop pfxNamespace.length⟩, x, tg⟩ := by
                simp [parseStep, hsep, hc, hnn, hr]
              have hgood : goodTok t = true := by
                simp [goodTok, hsep, hc', hnn, List.isEmpty_iff, hr]
              simp only [parseLoop, hstep]
              rw [ih]
              simp only [cBodies_cons_neg hc', nBodies_cons_pos hnn, xBodies_cons_neg hx,
                tVals_cons_err hpt, fill_none_cons]
              constructor
              · rintro ⟨hall, h1, h2, h3, h4⟩
                refine ⟨?_, h1, h2, h3, h4⟩
                intro u hu
                rcases List.mem_cons.mp hu with h | h
                · exact h ▸ hgood
                · exact hall u h
              · rintro ⟨hall, h1, h2, h3, h4⟩
                exact ⟨fun u hu => hall u (List.mem_cons_of_mem _ hu), h1, h2, h3, h4⟩
        · have hnn' : startsWithSeq pfxNamespace t = false := by simpa using hnn
          by_cases hxx : startsWithSeq pfxContext t = true
          · -- context-- token
            obtain ⟨hpt, -⟩ := context_tok_facts hxx
            by_cases hr : t.drop pfxContext.length = []
            · have hstep : parseStep ⟨c, n, x, tg⟩ t = .error .invalidFormat := by
                simp [parseStep, hsep, hc, hnn, hxx, hr]
              have hgood : goodTok t = false := by
                simp [goodTok, hc', hnn', hxx, hr]
              simp only [parseLoop, hstep]
              apply iff_of_false
              · simp
              · rintro ⟨hall, -⟩
                have h := hall t (List.mem_cons_self t ts)
                rw [hgood] at h; cases h
            · cases x with
              | some a =>
                have hstep : parseStep ⟨c, n, some a, tg⟩ t = .error .invalidFormat := by
                  simp [parseStep, hsep, hc, hnn, hxx, hr]
                simp only [parseLoop, hstep]
                apply iff_of_false
                · simp
                · rintro ⟨-, -, -, hfill, -⟩
                  rw [xBodies_cons_pos hxx] at hfill
                  exact absurd hfill (by simp [fill_some_cons])
              | none =>
                have hstep : parseStep ⟨c, n, none, tg⟩ t =
                    .ok ⟨c, n, some ⟨t.drop pfxContext.length⟩, tg⟩ := by
                  simp [parseStep, hsep, hc, hnn, hxx, hr]
                have hgood : goodTok t = true := by
                  simp [goodTok, hsep, hc', hnn', hxx, List.isEmpty_iff, hr]
                simp only [parseLoop, hstep]
                rw [ih]
                simp only [cBodies_cons_neg hc', nBodies_cons_neg hnn', xBodies_cons_pos hxx,
                  tVals_cons_err hpt, fill_none_cons]
                constructor
                · rintro ⟨hall, h1, h2, h3, h4⟩
                  refine ⟨?_, h1, h2, h3, h4⟩
                  intro u hu
                  rcases List.mem_cons.mp hu with h | h
                  · exact h ▸ hgood
                  · exact hall u h
                · rintro ⟨hall, h1, h2, h3, h4⟩
                  exact ⟨fun u hu => hall u (List.mem_cons_of_mem _ hu), h1, h2, h3, h4⟩
          · -- candidate target token
            have hxx' : startsWithSeq pfxContext t = false := by simpa using hxx
            cases hpt : parse_target t with
            | error e =>
              have hstep : parseStep ⟨c, n, x, tg⟩ t = .error e := by
                cases tg with
                | none => simp [parseStep, hsep, hc, hnn, hxx, hpt, Except.map]
                | some tv =>
                  have he : e = .invalidFormat := parse_target_error_eq hpt
                  simp [parseStep, hsep, hc, hnn, hxx, he]
              have hgood : goodTok t = false := by
                simp [goodTok, hc', hnn', hxx', hpt, Except.toOption]
              simp only [parseLoop, hstep]
              apply iff_of_false
              · simp
              · rintro ⟨hall, -⟩
                have h := hall t (List.mem_cons_self t ts)
                rw [hgood] at h; cases h
            | ok tv =>
              cases tg with
              | some a =>
                have hstep : parseStep ⟨c, n, x, some a⟩ t = .error .invalidFormat := by
                  simp [parseStep, hsep, hc, hnn, hxx]
                simp only [parseLoop, hstep]
                apply iff_of_false
                · simp
                · rintro ⟨-, -, -, -, hfill⟩
                  rw [tVals_cons_ok hpt] at hfill
                  exact absurd hfill (by simp [fill_some_cons])
              | none =>
                have hstep : parseStep ⟨c, n, x, none⟩ t =
                    .ok ⟨c, n, x, some tv⟩ := by
                  simp [parseStep, hsep, hc, hnn, hxx, hpt, Except.map]
                have hgood : goodTok t = true := by
                  simp [goodTok, hsep, hc', hnn', hxx', hpt, Except.toOption]
                simp only [parseLoop, hstep]
                rw [ih]
                simp only [cBodies_cons_neg hc', nBodies_cons_neg hnn', xBodies_cons_neg hxx',
                  tVals_cons_ok hpt, fill_none_cons]
                constructor
                · rintro ⟨hall, h1, h2, h3, h4⟩
                  refine ⟨?_, h1, h2, h3, h4⟩
                  intro u hu
                  rcases List.mem_cons.mp hu with h | h
                  · exact h ▸ hgood
                  · exact hall u h
                · rintro ⟨hall, h1, h2, h3, h4⟩
                  exact ⟨fun u hu => hall u (List.mem_cons_of_mem _ hu), h1, h2, h3, h4⟩
    · -- token without "--"
      have hstep : parseStep ⟨c, n, x, tg⟩ t = .error (.missingSeparator ⟨t⟩) := by
        simp [parseStep, hsep]
      have hgood : goodTok t = false := by
        simp [goodTok, hsep]
      simp only [parseLoop, hstep]
      apply iff_of_false
      · simp
      · rintro ⟨hall, -⟩
        have h := hall t (List.mem_cons_self t ts)
        rw [hgood] at h; cases h

/-- Success characterization of `parse` at the hostname level. -/
theorem parse_ok_iff (host : String) (r : HostSpec) :
    parse host = .ok r ↔
      ∃ ts, hostTokens host = some ts ∧
        (∀ t ∈ ts, goodTok t = true) ∧
        fill none (cBodies ts) = some r.container ∧
        fill none (nBodies ts) = some r.nspace ∧
        fill none (xBodies ts) = some r.context ∧
        fill none (tVals ts) = some (some r.target) := by
  obtain ⟨rx, rn, rt, rc⟩ := r
  unfold parse
  cases hts : hostTokens host with
  | none => simp
  | some ts =>
    dsimp only
    constructor
    · intro h
      cases hloop : parseLoop ts initState with
      | error e => rw [hloop] at h; cases h
      | ok st =>
        obtain ⟨sc, sn, sx, stg⟩ := st
        rw [hloop] at h
        obtain ⟨hall, h1, h2, h3, h4⟩ :=
          (parseLoop_ok_iff ts initState ⟨sc, sn, sx, stg⟩).mp hloop
        cases stg with
        | none => exact absurd h (by simp)
        | some tg =>
          have h5 : (⟨sx, sn, tg, sc⟩ : HostSpec) = ⟨rx, rn, rt, rc⟩ :=
            Except.ok.inj h
          obtain ⟨e1, e2, e3, e4⟩ := HostSpec.mk.injEq .. ▸ h5
          subst e1; subst e2; subst e3; subst e4
          exact ⟨ts, rfl, hall, h1, h2, h3, h4⟩
    · rintro ⟨ts2, hts2, hall, h1, h2, h3, h4⟩
      have he : ts2 = ts := Option.some.inj hts2.symm
      subst he
      have hloop : parseLoop ts2 initState = .ok ⟨rc, rn, rx, some rt⟩ :=
        (parseLoop_ok_iff ts2 initState ⟨rc, rn, rx, some rt⟩).mpr
          ⟨hall, h1, h2, h3, h4⟩
      rw [hloop]

theorem cBodies_perm {ts1 ts2 : List (List Char)} (hp : ts1.Perm ts2) :
    (cBodies ts1).Perm (cBodies ts2) := hp.filterMap _

theorem nBodies_perm {ts1 ts2 : List (List Char)} (hp : ts1.Perm ts2) :
    (nBodies ts1).Perm (nBodies ts2) := hp.filterMap _

theorem xBodies_perm {ts1 ts2 : List (List Char)} (hp : ts1.Perm ts2) :
    (xBodies ts1).Perm (xBodies ts2) := hp.filterMap _

theorem tVals_perm {ts1 ts2 : List (List Char)} (hp : ts1.Perm ts2) :
    (tVals ts1).Perm (tVals ts2) := hp.filterMap _

/-- `fill none` only looks at a list through emptiness/singleton shape,
so its successful results transport along permutations. -/
theorem fill_none_perm {α : Type} {l1 l2 : List α} (hp : l1.Perm l2)
    {o : Option α} (h : fill none l1 = some o) : fill none l2 = some o := by
  cases l1 with
  | nil =>
    have he : l2 = [] := hp.nil_eq.symm
    subst he; exact h
  | cons b bs =>
    cases bs with
    | nil =>
      have he : l2 = [b] := List.perm_singleton.mp hp.symm
      subst he; exact h
    | cons b2 bs2 => exact absurd h (by simp [fill])

end Sshpod

namespace Sshpod

/-- C1: the two scenario hostnames parse to exactly the claimed
`HostSpec`s: `pod--app.namespace--ns.sshpod` gives target Pod "app",
namespace "ns", no context, no container; and
`container--x.pod--a.namespace--n.context--c.sshpod` gives Pod "a",
namespace "n", context "c", container "x". -/
theorem c1_parse_scenarios :
    parse "pod--app.namespace--ns.sshpod" =
      .ok ⟨none, some "ns", .pod "app", none⟩ ∧
    parse "container--x.pod--a.namespace--n.context--c.sshpod" =
      .ok ⟨some "c", some "n", .pod "a", some "x"⟩ := by
  constructor <;> rfl

end Sshpod

namespace Sshpod

/-- The six prefixes are pairwise prefix-incomparable. -/
theorem knownPfx_pairwise :
    ∀ p ∈ knownPfxList, ∀ q ∈ knownPfxList, p ≠ q → ¬ p <+: q := by decide

/-- A token starting with one recognized prefix starts with no other. -/
theorem startsWith_only {p t : List Char} (hmem : p ∈ knownPfxList)
    (h : startsWithSeq p t = true) :
    ∀ q ∈ knownPfxList, q ≠ p → startsWithSeq q t = false := by
  intro q hq hne
  exact startsWith_disjoint h
    (knownPfx_pairwise p hmem q hq (fun he => hne he.symm))
    (knownPfx_pairwise q hq p hmem hne)

/-- A successful `parse_target` means the token starts with a target prefix. -/
theorem parse_target_ok_starts {t : List Char} {tg : Target}
    (h : parse_target t = .ok tg) :
    (startsWithSeq pfxPod t || startsWithSeq pfxDeployment t ||
     startsWithSeq pfxJob t) = true := by
  unfold parse_target at h
  repeat' split at h
  all_goals simp_all

/-- Pointwise reading of token rejection: a token is rejected exactly
when it lacks the separator, matches no known prefix, or is a known
prefix with an empty body. -/
theorem goodTok_false_iff (t : List Char) :
    goodTok t = false ↔
      (containsSeq sepSeq t = false ∨ noKnownTok t = true ∨
       emptyBodyTok t = true) := by
  by_cases hc : startsWithSeq pfxContainer t = true
  · have h1 := startsWith_only (by decide) hc pfxNamespace (by decide) (by decide)
    have h2 := startsWith_only (by decide) hc pfxContext (by decide) (by decide)
    have h3 := startsWith_only (by decide) hc pfxPod (by decide) (by decide)
    have h4 := startsWith_only (by decide) hc pfxDeployment (by decide) (by decide)
    have h5 := startsWith_only (by decide) hc pfxJob (by decide) (by decide)
    have hsep : containsSeq sepSeq t = true := contains_of_startsWith hc (by decide)
    simp [goodTok, noKnownTok, emptyBodyTok, hc, h1, h2, h3, h4, h5, hsep]
  · have hc' : startsWithSeq pfxContainer t = false := by simpa using hc
    by_cases hn : startsWithSeq pfxNamespace t = true
    · have h2 := startsWith_only (by decide) hn pfxContext (by decide) (by decide)
      have h3 := startsWith_only (by decide) hn pfxPod (by decide) (by decide)
      have h4 := startsWith_only (by decide) hn pfxDeployment (by decide) (by decide)
      have h5 := startsWith_only (by decide) hn pfxJob (by decide) (by decide)
      have hsep : containsSeq sepSeq t = true := contains_of_startsWith hn (by decide)
      simp [goodTok, noKnownTok, emptyBodyTok, hc', hn, h2, h3, h4, h5, hsep]
    · have hn' : startsWithSeq pfxNamespace t = false := by simpa using hn
      by_cases hx : startsWithSeq pfxContext t = true
      · have h3 := startsWith_only (by decide) hx pfxPod (by decide) (by decide)
        have h4 := startsWith_only (by decide) hx pfxDeployment (by decide) (by decide)
        have h5 := startsWith_only (by decide) hx pfxJob (by decide) (by decide)
        have hsep : containsSeq sepSeq t = true := contains_of_startsWith hx (by decide)
        simp [goodTok, noKnownTok, emptyBodyTok, hc', hn', hx, h3, h4, h5, hsep]
      · have hx' : startsWithSeq pfxContext t = false := by simpa using hx
        by_cases hp : startsWithSeq pfxPod t = true
        · have h4 := startsWith_only (by decide) hp pfxDeployment (by decide) (by decide)
          have h5 := startsWith_only (by decide) hp pfxJob (by decide) (by decide)
          have hsep : containsSeq sepSeq t = true := contains_of_startsWith hp (by decide)
          have hne : t ≠ [] := by
            intro he; subst he; simp [startsWithSeq, pfxPod] at hp
          by_cases hb : t.drop pfxPod.length = []
          · simp [goodTok, noKnownTok, emptyBodyTok, parse_target, Except.toOption,
              hc', hn', hx', hp, h4, h5, hsep, hne, hb]
          · simp [goodTok, noKnownTok, emptyBodyTok, parse_target, Except.toOption,
              hc', hn', hx', hp, h4, h5, hsep, hne, hb, List.isEmpty_iff]
        · have hp' : startsWithSeq pfxPod t = false := by simpa using hp
          by_cases hd : startsWithSeq pfxDeployment t = true
          · have h5 := startsWith_only (by decide) hd pfxJob (by decide) (by decide)
            have hsep : containsSeq sepSeq t = true := contains_of_startsWith hd (by decide)
            have hne : t ≠ [] := by
              intro he; subst he; simp [startsWithSeq, pfxDeployment] at hd
            by_cases hb : t.drop pfxDeployment.length = []
            · simp [goodTok, noKnownTok, emptyBodyTok, parse_target, Except.toOption,
                hc', hn', hx', hp', hd, h5, hsep, hne, hb]
            · simp [goodTok, noKnownTok, emptyBodyTok, parse_target, Except.toOption,
                hc', hn', hx', hp', hd, h5, hsep, hne, hb, List.isEmpty_iff]
          · have hd' : startsWithSeq pfxDeployment t = false := by simpa using hd
            by_cases hj : startsWithSeq pfxJob t = true
            · have hsep : containsSeq sepSeq t = true := contains_of_startsWith hj (by decide)
              have hne : t ≠ [] := by
                intro he; subst he; simp [startsWithSeq, pfxJob] at hj
              by_cases hb : t.drop pfxJob.length = []
              · simp [goodTok, noKnownTok, emptyBodyTok, parse_target, Except.toOption,
                  hc', hn', hx', hp', hd', hj, hsep, hne, hb]
              · simp [goodTok, noKnownTok, emptyBodyTok, parse_target, Except.toOption,
                  hc', hn', hx', hp', hd', hj, hsep, hne, hb, List.isEmpty_iff]
            · have hj' : startsWithSeq pfxJob t = false := by simpa using hj
              by_cases hne : t = []
              · subst hne
                simp [goodTok, noKnownTok, containsSeq, startsWithSeq, sepSeq,
                  hc', hn', hx', hp', hd', hj']
              · simp [goodTok, noKnownTok, emptyBodyTok, parse_target, Except.toOption,
                  hc', hn', hx', hp', hd', hj', hne]

/-- For an accepted token, `parse_target` succeeds iff the token is a
target token. -/
theorem good_target_toOption {t : List Char} (hg : goodTok t = true) :
    (parse_target t).toOption.isSome =
      (startsWithSeq pfxPod t || startsWithSeq pfxDeployment t ||
       startsWithSeq pfxJob t) := by
  by_cases hc : startsWithSeq pfxContainer t = true
  · obtain ⟨-, -, hpt, -⟩ := container_tok_facts hc
    have h3 := startsWith_only (by decide) hc pfxPod (by decide) (by decide)
    have h4 := startsWith_only (by decide) hc pfxDeployment (by decide) (by decide)
    have h5 := startsWith_only (by decide) hc pfxJob (by decide) (by decide)
    simp [hpt, h3, h4, h5, Except.toOption]
  · have hc' : startsWithSeq pfxContainer t = false := by simpa using hc
    by_cases hn : startsWithSeq pfxNamespace t = true
    · obtain ⟨-, hpt, -⟩ := nspace_tok_facts hn
      have h3 := startsWith_only (by decide) hn pfxPod (by decide) (by decide)
      have h4 := startsWith_only (by decide) hn pfxDeployment (by decide) (by decide)
      have h5 := startsWith_only (by decide) hn pfxJob (by decide) (by decide)
      simp [hpt, h3, h4, h5, Except.toOption]
    · have hn' : startsWithSeq pfxNamespace t = false := by simpa using hn
      by_cases hx : startsWithSeq pfxContext t = true
      · obtain ⟨hpt, -⟩ := context_tok_facts hx
        have h3 := startsWith_only (by decide) hx pfxPod (by decide) (by decide)
        have h4 := startsWith_only (by decide) hx pfxDeployment (by decide) (by decide)
        have h5 := startsWith_only (by decide) hx pfxJob (by decide) (by decide)
        simp [hpt, h3, h4, h5, Except.toOption]
      · have hx' : startsWithSeq pfxContext t = false := by simpa using hx
        have hiso : (parse_target t).toOption.isSome = true := by
          simp [goodTok, hc', hn', hx'] at hg
          exact hg.2
        rw [hiso]
        cases hpt : parse_target t with
        | error e => rw [hpt] at hiso; simp [Except.toOption] at hiso
        | ok tg => exact (parse_target_ok_starts hpt).symm

theorem cBodies_length (ts : List (List Char)) :
    (cBodies ts).length = countStart pfxContainer ts := by
  induction ts with
  | nil => rfl
  | cons t ts ih =>
    by_cases h : startsWithSeq pfxContainer t = true
    · rw [cBodies_cons_pos h]
      simp [countStart, List.filter_cons, h]
      simpa [countStart] using ih
    · have h' : startsWithSeq pfxContainer t = false := by simpa using h
      rw [cBodies_cons_neg h']
      simp [countStart, List.filter_cons, h']
      simpa [countStart] using ih

theorem nBodies_length (ts : List (List Char)) :
    (nBodies ts).length = countStart pfxNamespace ts := by
  induction ts with
  | nil => rfl
  | cons t ts ih =>
    by_cases h : startsWithSeq pfxNamespace t = true
    · rw [nBodies_cons_pos h]
      simp [countStart, List.filter_cons, h]
      simpa [countStart] using ih
    · have h' : startsWithSeq pfxNamespace t = false := by simpa using h
      rw [nBodies_cons_neg h']
      simp [countStart, List.filter_cons, h']
      simpa [countStart] using ih

theorem xBodies_length (ts : List (List Char)) :
    (xBodies ts).length = countStart pfxContext ts := by
  induction ts with
  | nil => rfl
  | cons t ts ih =>
    by_cases h : startsWithSeq pfxContext t = true
    · rw [xBodies_cons_pos h]
      simp [countStart, List.filter_cons, h]
      simpa [countStart] using ih
    · have h' : startsWithSeq pfxContext t = false := by simpa using h
      rw [xBodies_cons_neg h']
      simp [countStart, List.filter_cons, h']
      simpa [countStart] using ih

theorem tVals_length_of_good (ts : List (List Char))
    (hall : ∀ t ∈ ts, goodTok t = true) :
    (tVals ts).length = targetCount ts := by
  induction ts with
  | nil => rfl
  | cons t ts ih =>
    have hg := hall t (List.mem_cons_self t ts)
    have hrest : ∀ u ∈ ts, goodTok u = true :=
      fun u hu => hall u (List.mem_cons_of_mem _ hu)
    have hopt := good_target_toOption hg
    cases hpt : parse_target t with
    | ok tg =>
      rw [tVals_cons_ok hpt]
      have hb : (startsWithSeq pfxPod t || startsWithSeq pfxDeployment t ||
          startsWithSeq pfxJob t) = true := by
        rw [← hopt, hpt]; rfl
      simp [targetCount, List.filter_cons, hb]
      simpa [targetCount] using ih hrest
    | error e =>
      rw [tVals_cons_err hpt]
      have hb : (startsWithSeq pfxPod t || startsWithSeq pfxDeployment t ||
          startsWithSeq pfxJob t) = false := by
        rw [← hopt, hpt]; rfl
      simp [targetCount, List.filter_cons, hb]
      simpa [targetCount] using ih hrest

theorem fill_none_isSome_iff {α : Type} (l : List α) :
    (∃ o, fill none l = some o) ↔ l.length ≤ 1 := by
  cases l with
  | nil => simp [fill]
  | cons b bs =>
    cases bs with
    | nil => simp [fill]
    | cons b2 bs2 => simp [fill]

theorem fill_none_eq_one_iff {α : Type} (l : List α) :
    (∃ a, fill none l = some (some a)) ↔ l.length = 1 := by
  cases l with
  | nil => simp [fill]
  | cons b bs =>
    cases bs with
    | nil => simp [fill]
    | cons b2 bs2 => simp [fill]

theorem parseStep_error_ne_missingSuffix (st : ParseState) (t : List Char) :
    parseStep st t ≠ .error .missingSuffix := by
  intro h
  unfold parseStep at h
  repeat' split at h
  all_goals try exact absurd h (by simp)
  cases hpt : parse_target t with
  | error e =>
    rw [hpt] at h
    have he := parse_target_error_eq hpt
    subst he
    simp [Except.map] at h
  | ok tg => rw [hpt] at h; simp [Except.map] at h

theorem parseLoop_error_ne_missingSuffix (ts : List (List Char)) :
    ∀ st, parseLoop ts st ≠ .error .missingSuffix := by
  induction ts with
  | nil => intro st h; simp [parseLoop] at h
  | cons t ts ih =>
    intro st h
    cases hstep : parseStep st t with
    | error e =>
      simp only [parseLoop, hstep] at h
      have he : e = .missingSuffix := by simpa using h
      exact parseStep_error_ne_missingSuffix st t (he ▸ hstep)
    | ok st2 =>
      simp only [parseLoop, hstep] at h
      exact ih st2 h

end Sshpod

namespace Sshpod

/-- C9: `hostspec::parse` is order-independent and dot-tolerant: two
hostnames carrying the `.sshpod` suffix whose non-empty dot-separated
token lists are permutations of one another (extra dots contribute no
tokens at all) parse to the same successful `HostSpec`. -/
theorem c9_parse_perm_invariant (h1 h2 : String) (ts1 ts2 : List (List Char))
    (r : HostSpec) (e1 : hostTokens h1 = some ts1) (e2 : hostTokens h2 = some ts2)
    (hp : ts1.Perm ts2) (hok : parse h1 = .ok r) : parse h2 = .ok r := by
  rw [parse_ok_iff] at hok ⊢
  obtain ⟨ts, hts, hall, hfc, hfn, hfx, hft⟩ := hok
  rw [e1] at hts
  obtain rfl : ts = ts1 := Option.some.inj hts.symm
  exact ⟨ts2, e2, fun t htm => hall t (hp.mem_iff.mpr htm),
    fill_none_perm (cBodies_perm hp) hfc,
    fill_none_perm (nBodies_perm hp) hfn,
    fill_none_perm (xBodies_perm hp) hfx,
    fill_none_perm (tVals_perm hp) hft⟩

/-- Witness for C9: a permuted, extra-dotted hostname parses to the
same `HostSpec` as its normal form. -/
theorem c9_parse_perm_invariant_witness :
    parse "pod--a.container--x.sshpod" = .ok ⟨none, none, .pod "a", some "x"⟩ :=
  c9_parse_perm_invariant "container--x..pod--a.sshpod" "pod--a.container--x.sshpod"
    ["container--x".data, "pod--a".data] ["pod--a".data, "container--x".data]
    ⟨none, none, .pod "a", some "x"⟩ (by rfl) (by rfl) (by decide) (by rfl)

/-- C2 (amended): `parse` fails exactly when the `.sshpod` suffix is
absent (then, and only then, with `MissingSuffix`), a token lacks `--`
(with an error naming that token, as in the quoted example), a token
matches no known prefix, a recognized prefix has an empty body, one of
`container--`/`namespace--`/`context--` occurs twice, more than one
target token is present (the amendment: two *distinct* target prefixes
such as `pod--`+`job--` also fail, which the literal "a prefix occurs
twice" does not cover), or no target token is present. -/
theorem c2_error_conditions :
    (∀ host : String, isErr (parse host) = true ↔
      (hostTokens host = none ∨
       ∃ ts, hostTokens host = some ts ∧
         ((∃ t ∈ ts, containsSeq sepSeq t = false) ∨
          (∃ t ∈ ts, noKnownTok t = true) ∨
          (∃ t ∈ ts, emptyBodyTok t = true) ∨
          2 ≤ countStart pfxContainer ts ∨
          2 ≤ countStart pfxNamespace ts ∨
          2 ≤ countStart pfxContext ts ∨
          2 ≤ targetCount ts ∨
          targetCount ts = 0))) ∧
    (∀ host : String, parse host = .error .missingSuffix ↔ hostTokens host = none) ∧
    parse "deployment--ws.context-pfcp-pfn-yh1-01.sshpod" =
      .error (.missingSeparator "context-pfcp-pfn-yh1-01") := by
  refine ⟨?_, ?_, by rfl⟩
  · intro host
    constructor
    · intro herr
      cases hts : hostTokens host with
      | none => exact Or.inl rfl
      | some ts =>
        refine Or.inr ⟨ts, rfl, ?_⟩
        by_cases hall : ∀ t ∈ ts, goodTok t = true
        · have hnook : ∀ r, parse host ≠ .ok r := by
            intro r hr
            rw [hr] at herr
            simp [isErr] at herr
          by_contra hcon
          push_neg at hcon
          obtain ⟨h1, h2, h3, h4, h5, h6, h7, h8⟩ := hcon
          have hcb : (cBodies ts).length ≤ 1 := by
            rw [cBodies_length]; omega
          have hnb : (nBodies ts).length ≤ 1 := by
            rw [nBodies_length]; omega
          have hxb : (xBodies ts).length ≤ 1 := by
            rw [xBodies_length]; omega
          have htv : (tVals ts).length = 1 := by
            rw [tVals_length_of_good ts hall]; omega
          obtain ⟨o1, ho1⟩ := (fill_none_isSome_iff (cBodies ts)).mpr hcb
          obtain ⟨o2, ho2⟩ := (fill_none_isSome_iff (nBodies ts)).mpr hnb
          obtain ⟨o3, ho3⟩ := (fill_none_isSome_iff (xBodies ts)).mpr hxb
          obtain ⟨tg, htg⟩ := (fill_none_eq_one_iff (tVals ts)).mpr htv
          exact hnook ⟨o3, o2, tg, o1⟩
            ((parse_ok_iff host ⟨o3, o2, tg, o1⟩).mpr
              ⟨ts, hts, hall, ho1, ho2, ho3, htg⟩)
        · push_neg at hall
          obtain ⟨t, htm, hbad⟩ := hall
          have hb : goodTok t = false := by simpa using hbad
          rcases (goodTok_false_iff t).mp hb with h | h | h
          · exact Or.inl ⟨t, htm, h⟩
          · exact Or.inr (Or.inl ⟨t, htm, h⟩)
          · exact Or.inr (Or.inr (Or.inl ⟨t, htm, h⟩))
    · intro hcond
      rcases hcond with hnone | ⟨ts, hts, hbad⟩
      · simp [isErr, parse, hnone]
      · cases hok : parse host with
        | error e => simp [isErr]
        | ok r =>
          exfalso
          obtain ⟨ts2, hts2, hall, hfc, hfn, hfx, hft⟩ := (parse_ok_iff host r).mp hok
          rw [hts] at hts2
          have he : ts2 = ts := (Option.some.inj hts2).symm
          rw [he] at hall hfc hfn hfx hft
          have hcb : (cBodies ts).length ≤ 1 := (fill_none_isSome_iff _).mp ⟨_, hfc⟩
          have hnb : (nBodies ts).length ≤ 1 := (fill_none_isSome_iff _).mp ⟨_, hfn⟩
          have hxb : (xBodies ts).length ≤ 1 := (fill_none_isSome_iff _).mp ⟨_, hfx⟩
          have htv : (tVals ts).length = 1 := (fill_none_eq_one_iff _).mp ⟨_, hft⟩
          rw [cBodies_length] at hcb
          rw [nBodies_length] at hnb
          rw [xBodies_length] at hxb
          rw [tVals_length_of_good ts hall] at htv
          rcases hbad with ⟨t, htm, hs⟩ | ⟨t, htm, hs⟩ | ⟨t, htm, hs⟩
            | hcnt | hcnt | hcnt | hcnt | hcnt
          · have hgf : goodTok t = false := (goodTok_false_iff t).mpr (Or.inl hs)
            rw [hall t htm] at hgf; cases hgf
          · have hgf : goodTok t = false := (goodTok_false_iff t).mpr (Or.inr (Or.inl hs))
            rw [hall t htm] at hgf; cases hgf
          · have hgf : goodTok t = false :=
              (goodTok_false_iff t).mpr (Or.inr (Or.inr hs))
            rw [hall t htm] at hgf; cases hgf
          · omega
          · omega
          · omega
          · omega
          · omega
  · intro host
    constructor
    · intro h
      cases hts : hostTokens host with
      | none => rfl
      | some ts =>
        exfalso
        unfold parse at h
        rw [hts] at h
        dsimp only at h
        cases hloop : parseLoop ts initState with
        | error e =>
          rw [hloop] at h
          have he : e = .missingSuffix := by simpa using h
          exact parseLoop_error_ne_missingSuffix ts initState (he ▸ hloop)
        | ok st =>
          rw [hloop] at h
          dsimp only at h
          cases hst : st.target with
          | none => rw [hst] at h; simp at h
          | some tg => rw [hst] at h; simp at h
    · intro h
      simp [parse, h]

/-- C2 counterexample to the claim as stated: `pod--a.job--b.sshpod`
is rejected by `parse` even though no single prefix occurs twice, every
token has a recognized prefix with a separator and non-empty body, and
a target token is present — so the claim's "fails exactly when" list
does not cover it. -/
theorem c2_counterexample :
    isErr (parse "pod--a.job--b.sshpod") = true ∧
    claimFailB "pod--a.job--b.sshpod" = false := by decide

end Sshpod

namespace Sshpod

/-- `is_ready` computes exactly the claim's readiness predicate. -/
theorem is_ready_eq (pod : PodListItem) : is_ready pod = isReadySpec pod := by
  obtain ⟨⟨nm⟩, status⟩ := pod
  cases status with
  | none => rfl
  | some st =>
    obtain ⟨phase, conds⟩ := st
    cases phase with
    | none => rfl
    | some p =>
      by_cases hp : p = "Running"
      · subst hp
        cases conds with
        | none => rfl
        | some l => rfl
      · have hp2 : (p == "Running") = false := by simp [hp]
        simp [is_ready, isReadySpec, Option.bind, hp2]

/-- `is_running` computes exactly the claim's running predicate. -/
theorem is_running_eq (pod : PodListItem) : is_running pod = isRunningSpec pod := by
  obtain ⟨⟨nm⟩, status⟩ := pod
  cases status with
  | none => rfl
  | some st =>
    obtain ⟨phase, conds⟩ := st
    cases phase with
    | none => rfl
    | some p => simp [is_running, isRunningSpec, Option.bind]

/-- C3: `select_pod` returns the name of the first Ready pod, else the
first Running pod, else the first item, and errors on the empty list —
i.e. it coincides with the claim's selection rule on every pod list. -/
theorem c3_select_pod (pods : List PodListItem) (kind selector nspace : String) :
    select_pod pods kind selector nspace = selectSpec pods kind selector nspace := by
  have hre : (is_ready : PodListItem → Bool) = isReadySpec := funext is_ready_eq
  have hru : (is_running : PodListItem → Bool) = isRunningSpec := funext is_running_eq
  cases pods with
  | nil => rfl
  | cons p ps =>
    simp only [select_pod, selectSpec, hre, hru, List.isEmpty_cons]
    cases hf : (p :: ps).find? isReadySpec with
    | some q => simp [Option.orElse, hf]
    | none =>
      cases hg : (p :: ps).find? isRunningSpec with
      | some q => simp [Option.orElse, hf, hg]
      | none => simp [Option.orElse, hf, hg]

/-- C4: `to_selector` renders matchLabels entries as `k=v` (in map
iteration order, so for the two-entry map both iteration orders appear)
and matchExpressions per operator; it fails on In/NotIn without values,
on any other operator, and on an empty composed selector. -/
theorem c4_to_selector :
    (∀ a b c d : String, to_selector ⟨[(a, b), (c, d)], []⟩ =
        .ok ((a ++ "=" ++ b) ++ "," ++ (c ++ "=" ++ d))) ∧
    (∀ (k : String) (vs : List String), vs ≠ [] →
        to_selector ⟨[], [⟨k, "In", vs⟩]⟩ =
          .ok (k ++ " in (" ++ joinSep "," vs ++ ")")) ∧
    (∀ k : String, to_selector ⟨[], [⟨k, "In", []⟩]⟩ =
        .error "matchExpressions In requires values") ∧
    (∀ (k : String) (vs : List String), vs ≠ [] →
        to_selector ⟨[], [⟨k, "NotIn", vs⟩]⟩ =
          .ok (k ++ " notin (" ++ joinSep "," vs ++ ")")) ∧
    (∀ k : String, to_selector ⟨[], [⟨k, "NotIn", []⟩]⟩ =
        .error "matchExpressions NotIn requires values") ∧
    (∀ (k : String) (vs : List String),
        to_selector ⟨[], [⟨k, "Exists", vs⟩]⟩ = .ok k) ∧
    (∀ (k : String) (vs : List String),
        to_selector ⟨[], [⟨k, "DoesNotExist", vs⟩]⟩ = .ok ("!" ++ k)) ∧
    (∀ (k op : String) (vs : List String),
        op ∉ (["In", "NotIn", "Exists", "DoesNotExist"] : List String) →
        to_selector ⟨[], [⟨k, op, vs⟩]⟩ =
          .error ("unsupported matchExpression operator: " ++ op)) ∧
    to_selector ⟨[], []⟩ = .error "label selector is empty" := by
  refine ⟨fun a b c d => rfl, ?_, fun k => rfl, ?_, fun k => rfl,
    fun k vs => rfl, fun k vs => rfl, ?_, rfl⟩
  · intro k vs h
    cases vs with
    | nil => exact absurd rfl h
    | cons v vt => rfl
  · intro k vs h
    cases vs with
    | nil => exact absurd rfl h
    | cons v vt => rfl
  · intro k op vs hop
    have h1 : ¬ op = "In" := fun he => hop (by simp [he])
    have h2 : ¬ op = "NotIn" := fun he => hop (by simp [he])
    have h3 : ¬ op = "Exists" := fun he => hop (by simp [he])
    have h4 : ¬ op = "DoesNotExist" := fun he => hop (by simp [he])
    simp [to_selector, renderExprs, renderExpr, h1, h2, h3, h4]

/-- Witness for C4 at concrete inputs. -/
theorem c4_to_selector_witness :
    to_selector ⟨[], [⟨"env", "In", ["a", "b"]⟩]⟩ =
      .ok ("env" ++ " in (" ++ joinSep "," ["a", "b"] ++ ")") ∧
    to_selector ⟨[], [⟨"k", "Weird", ["v"]⟩]⟩ =
      .error ("unsupported matchExpression operator: " ++ "Weird") :=
  ⟨c4_to_selector.2.1 "env" ["a", "b"] (by decide),
   c4_to_selector.2.2.2.2.2.2.2.1 "k" "Weird" ["v"] (by decide)⟩

/-- C7: `ensure_plain_data` is idempotent and memoizing: a first
successful call decompresses and fills the cache, and any later call on
a filled cache returns the cached bytes and leaves the cache unchanged
(no second decompression is attempted). -/
theorem c7_ensure_plain_data (dec : Except String (List Nat)) (b : List Nat)
    (h : dec = .ok b) :
    ensure_plain_data dec none = .ok (b, some b) ∧
    (∀ (dec2 : Except String (List Nat)) (v : List Nat),
      ensure_plain_data dec2 (some v) = .ok (v, some v)) := by
  subst h
  exact ⟨rfl, fun d2 v => rfl⟩

/-- Witness for C7. -/
theorem c7_ensure_plain_data_witness :
    ensure_plain_data (Except.ok [7, 7]) none = .ok ([7, 7], some [7, 7]) ∧
    ensure_plain_data (Except.error "bad xz") (some [7, 7]) =
      .ok ([7, 7], some [7, 7]) :=
  ⟨(c7_ensure_plain_data (Except.ok [7, 7]) [7, 7] rfl).1,
   (c7_ensure_plain_data (Except.ok [7, 7]) [7, 7] rfl).2 (Except.error "bad xz") [7, 7]⟩

/-- C8 (amended): the namespace is the HostSpec's namespace when
present; otherwise the default namespace of the HostSpec's context when
a context is given, and of the context literally named "default" when
not; empty only when that lookup yields nothing. -/
theorem c8_namespace_resolution (hostNs hostCtx : Option String)
    (ctxDefault : String → Option String) :
    resolve_namespace hostNs hostCtx ctxDefault =
      resolve_namespace_spec hostNs hostCtx ctxDefault := by
  cases hostNs <;> cases hostCtx <;> rfl

/-- C8 counterexample to the claim as stated: with no namespace and no
context in the HostSpec, the code does not leave the namespace empty —
it queries the default namespace of the context named "default" and
uses it. -/
theorem c8_counterexample :
    resolve_namespace none none
        (fun ctx => if ctx = "default" then some "team-ns" else none) = "team-ns" ∧
    resolve_namespace_claimed none none
        (fun ctx => if ctx = "default" then some "team-ns" else none) = "" ∧
    resolve_namespace none none
        (fun ctx => if ctx = "default" then some "team-ns" else none) ≠
      resolve_namespace_claimed none none
        (fun ctx => if ctx = "default" then some "team-ns" else none) := by
  refine ⟨rfl, rfl, ?_⟩
  decide

theorem containsSeq_of_infix {p s : List Char} (h : p <:+: s) :
    containsSeq p s = true := (containsSeq_iff p s).mpr h

/-- C6 (amended): when the remote markers do not match and the xz and
gzip attempts fail, and the plain payload decompression succeeds but the
plain install command fails, the final error contains both the
xz-attempt and gzip-attempt error strings.  (When the decompression
itself fails at the plain stage, the final error is the preparation
failure instead — see the counterexample.) -/
theorem c6_bundle_error (env : BundleEnv) (base arch : String)
    (e1 e2 e3 : String) (b : List Nat)
    (hver : (env.remoteVersion == some BUNDLE_VERSION &&
      env.remoteArch == some arch) = false)
    (hxz : try_install_xz env = .error e1)
    (hgz : (try_install_gzip env none).1 = .error e2)
    (hdec : env.xzDecompress = .ok b)
    (hplain : env.plainInstall = .error e3) :
    ∃ s, ensure_bundle env base arch = .error s ∧
      containsSeq e1.data s.data = true ∧ containsSeq e2.data s.data = true := by
  have hone : ∀ c1 : Option (List Nat),
      ∃ v, ensure_plain_data env.xzDecompress c1 = .ok v := by
    intro c1
    cases c1 with
    | none => exact ⟨(b, some b), by simp [ensure_plain_data, hdec]⟩
    | some v => exact ⟨(v, some v), rfl⟩
  cases hpr : try_install_gzip env none with
  | mk r c1 =>
    have hr : r = .error e2 := by rw [hpr] at hgz; exact hgz
    subst hr
    obtain ⟨v, hv⟩ := hone c1
    refine ⟨"failed to install bundle into " ++ base ++
      " (xz: " ++ e1 ++ "; gzip: " ++ e2 ++ "): " ++ e3, ?_, ?_, ?_⟩
    · unfold ensure_bundle
      rw [hver, hxz, hpr]
      simp only [Bool.false_eq_true, if_false]
      rw [hv, hplain]
    · refine containsSeq_of_infix ?_
      refine ⟨("failed to install bundle into " ++ base ++ " (xz: ").data,
        ("; gzip: " ++ e2 ++ "): " ++ e3).data, ?_⟩
      simp [String.data_append, List.append_assoc]
    · refine containsSeq_of_infix ?_
      refine ⟨("failed to install bundle into " ++ base ++ " (xz: " ++ e1 ++
        "; gzip: ").data, ("): " ++ e3).data, ?_⟩
      simp [String.data_append, List.append_assoc]

/-- Witness for C6 (amended) at a concrete environment. -/
theorem c6_bundle_error_witness :
    ∃ s,
      ensure_bundle
        ⟨some "other", none, true, true, Except.error "xz exec failed",
          Except.error "gzip exec failed", Except.error "plain exec failed",
          Except.ok [1, 2, 3]⟩ "/tmp/sshpod/u/c" "linux/amd64" = .error s ∧
      containsSeq "xz exec failed".data s.data = true ∧
      containsSeq "gzip exec failed".data s.data = true :=
  c6_bundle_error
    ⟨some "other", none, true, true, Except.error "xz exec failed",
      Except.error "gzip exec failed", Except.error "plain exec failed",
      Except.ok [1, 2, 3]⟩ "/tmp/sshpod/u/c" "linux/amd64"
    "xz exec failed" "gzip exec failed" "plain exec failed" [1, 2, 3]
    (by decide) (by rfl) (by rfl) (by rfl) (by rfl)

/-- C6 counterexample to the claim as stated: in a container with
neither xz nor gzip and a corrupt xz payload, all three install paths
fail, yet the final error is the plain-payload preparation failure and
contains neither the xz-attempt nor the gzip-attempt error string. -/
theorem c6_counterexample :
    try_install_xz
        ⟨none, none, false, false, Except.error "unused", Except.error "unused",
          Except.error "unused", Except.error "failed to decompress xz"⟩ =
      .error "xz not available in container" ∧
    (try_install_gzip
        ⟨none, none, false, false, Except.error "unused", Except.error "unused",
          Except.error "unused", Except.error "failed to decompress xz"⟩ none).1 =
      .error "gzip not available in container" ∧
    ensure_bundle
        ⟨none, none, false, false, Except.error "unused", Except.error "unused",
          Except.error "unused", Except.error "failed to decompress xz"⟩
        "/tmp/sshpod/u/c" "linux/amd64" =
      .error "failed to prepare sshd payload for plain install: failed to decompress xz" ∧
    containsSeq "xz not available in container".data
      "failed to prepare sshd payload for plain install: failed to decompress xz".data
      = false ∧
    containsSeq "gzip not available in container".data
      "failed to prepare sshd payload for plain install: failed to decompress xz".data
      = false := by
  refine ⟨rfl, rfl, rfl, ?_, ?_⟩ <;> decide

end Sshpod

namespace Sshpod

/-! ## Lineation lemmas for `merge_config` -/

theorem splitOnChar_ne_nil (c : Char) (s : List Char) : splitOnChar c s ≠ [] := by
  cases s with
  | nil => simp [splitOnChar]
  | cons x xs =>
    simp only [splitOnChar]
    cases h : splitOnChar c xs with
    | nil => simp
    | cons r rs =>
      dsimp only
      split <;> simp

theorem splitOnChar_not_mem (c : Char) (s : List Char) :
    ∀ l ∈ splitOnChar c s, c ∉ l := by
  induction s with
  | nil =>
    intro l hl
    simp [splitOnChar] at hl
    subst hl; simp
  | cons x xs ih =>
    intro l hl
    simp only [splitOnChar] at hl
    cases h : splitOnChar c xs with
    | nil => exact absurd h (splitOnChar_ne_nil c xs)
    | cons r rs =>
      rw [h] at hl
      dsimp only at hl
      by_cases hxc : x = c
      · rw [if_pos hxc] at hl
        rcases List.mem_cons.mp hl with h1 | h1
        · subst h1; simp
        · exact ih l (h ▸ h1)
      · rw [if_neg hxc] at hl
        rcases List.mem_cons.mp hl with h1 | h1
        · subst h1
          intro hmem
          rcases List.mem_cons.mp hmem with h2 | h2
          · exact hxc h2.symm
          · exact ih r (by rw [h]; exact List.mem_cons_self ..) h2
        · exact ih l (by rw [h]; exact List.mem_cons_of_mem _ h1)

theorem splitOnChar_append (c : Char) (a rest : List Char) (ha : c ∉ a) :
    splitOnChar c (a ++ c :: rest) = a :: splitOnChar c rest := by
  induction a with
  | nil =>
    simp only [List.nil_append, splitOnChar]
    cases h : splitOnChar c rest with
    | nil => exact absurd h (splitOnChar_ne_nil c rest)
    | cons r rs => simp
  | cons y ys ih =>
    have hy : ¬ y = c := by
      intro he; exact ha (by simp [he])
    have ha2 : c ∉ ys := fun hm => ha (List.mem_cons_of_mem _ hm)
    have hstep : splitOnChar c ((y :: ys) ++ c :: rest) =
        match splitOnChar c (ys ++ c :: rest) with
        | [] => [[]]
        | r :: rs => if y = c then [] :: r :: rs else (y :: r) :: rs := rfl
    rw [hstep, ih ha2]
    simp [hy]

theorem linesOfPieces_cons (a : List Char) (ps : List (List Char)) (hne : ps ≠ []) :
    linesOfPieces (a :: ps) = (⟨stripCr a⟩ : String) :: linesOfPieces ps := by
  obtain ⟨r, rs, rfl⟩ : ∃ r rs, ps = r :: rs := by
    cases ps with
    | nil => exact absurd rfl hne
    | cons r rs => exact ⟨r, rs, rfl⟩
  simp only [linesOfPieces, List.dropLast_cons₂, List.map_cons, List.getLast?_cons_cons]
  cases h : (r :: rs).getLast? with
  | none => simp at h
  | some last =>
    by_cases hl : last = []
    · simp [hl]
    · simp [hl]

/-- `rustLines` through `linesOfPieces`, valid for the empty string
too. -/
theorem rustLines_eq_pieces (s : String) :
    rustLines s = linesOfPieces (splitOnChar '\n' s.data) := by
  unfold rustLines
  cases h : s.data with
  | nil => simp [h, splitOnChar, linesOfPieces]
  | cons c cs => simp [h]

theorem stripCr_eq_self {l : List Char} (h : l.getLast? ≠ some '\r') :
    stripCr l = l := by
  unfold stripCr
  rw [if_neg h]

/-- Rust `lines` of `x ++ "\n" ++ t` starts with the line `x` whenever
`x` is LF-free and does not end in a CR. -/
theorem rustLines_cons (x t : String) (hx : '\n' ∉ x.data)
    (hr : x.data.getLast? ≠ some '\r') :
    rustLines (x ++ "\n" ++ t) = x :: rustLines t := by
  have hdata : (x ++ "\n" ++ t).data = x.data ++ '\n' :: t.data := by
    simp [String.data_append]
  rw [rustLines_eq_pieces, rustLines_eq_pieces, hdata,
    splitOnChar_append _ _ _ hx,
    linesOfPieces_cons _ _ (splitOnChar_ne_nil _ _),
    stripCr_eq_self hr]

/-- Rust `lines` of `joinSep "\n" ls ++ "\n" ++ t` begins with `ls`,
for non-empty `ls` of LF-free, non-CR-terminated lines. -/
theorem rustLines_join (ls : List String) (hne : ls ≠ [])
    (hlf : ∀ l ∈ ls, '\n' ∉ l.data)
    (hcr : ∀ l ∈ ls, l.data.getLast? ≠ some '\r') :
    ∀ t : String, rustLines (joinSep "\n" ls ++ "\n" ++ t) = ls ++ rustLines t := by
  induction ls with
  | nil => exact absurd rfl hne
  | cons x ls ih =>
    intro t
    cases ls with
    | nil =>
      exact rustLines_cons x t (hlf x (List.mem_cons_self ..))
        (hcr x (List.mem_cons_self ..))
    | cons y ys =>
      have hassoc : joinSep "\n" (x :: y :: ys) ++ "\n" ++ t =
          x ++ "\n" ++ (joinSep "\n" (y :: ys) ++ "\n" ++ t) := by
        show (x ++ "\n" ++ joinSep "\n" (y :: ys)) ++ "\n" ++ t = _
        simp [String.append_assoc]
      rw [hassoc,
        rustLines_cons x _ (hlf x (List.mem_cons_self ..)) (hcr x (List.mem_cons_self ..)),
        ih (by simp) (fun l hl => hlf l (List.mem_cons_of_mem _ hl))
          (fun l hl => hcr l (List.mem_cons_of_mem _ hl)) t]
      simp

/-- Lines produced by `rustLines` never contain an LF. -/
theorem rustLines_no_lf (s : String) : ∀ l ∈ rustLines s, '\n' ∉ l.data := by
  rw [rustLines_eq_pieces]
  intro l hl
  have hpieces := splitOnChar_not_mem '\n' s.data
  have hterm : ∀ piece ∈ (splitOnChar '\n' s.data).dropLast,
      '\n' ∉ stripCr piece := by
    intro piece hpm
    have h2 := hpieces piece ((List.dropLast_sublist _).subset hpm)
    intro hc
    unfold stripCr at hc
    split at hc
    · exact h2 ((List.dropLast_sublist piece).subset hc)
    · exact h2 hc
  unfold linesOfPieces at hl
  cases hg : (splitOnChar '\n' s.data).getLast? with
  | none =>
    rw [hg] at hl
    dsimp only at hl
    simp only [List.mem_map] at hl
    obtain ⟨piece, hpm, rfl⟩ := hl
    exact hterm piece hpm
  | some last =>
    rw [hg] at hl
    dsimp only at hl
    split at hl
    · simp only [List.mem_map] at hl
      obtain ⟨piece, hpm, rfl⟩ := hl
      exact hterm piece hpm
    · rcases List.mem_append.mp hl with h1 | h1
      · simp only [List.mem_map] at h1
        obtain ⟨piece, hpm, rfl⟩ := h1
        exact hterm piece hpm
      · have h1e : l = (⟨last⟩ : String) := by simpa using h1
        subst h1e
        obtain ⟨hne2, heq2⟩ :=
          List.mem_getLast?_eq_getLast (l := splitOnChar '\n' s.data)
            (x := last) (by rw [hg]; rfl)
        exact hpieces last (heq2 ▸ List.getLast_mem hne2)

end Sshpod

namespace Sshpod

/-! ## Marker-machine lemmas -/

theorem keptLines_cons_start {l : String} (h : trimStr l = START_MARKER)
    (sk : Bool) (ls : List String) :
    keptLines sk (l :: ls) = keptLines true ls := by
  simp [keptLines, h]

theorem keptLines_cons_skip_end {l : String} (h1 : trimStr l ≠ START_MARKER)
    (h2 : trimStr l = END_MARKER) (ls : List String) :
    keptLines true (l :: ls) = keptLines false ls := by
  simp only [keptLines]
  rw [if_neg h1]
  simp [h2]

theorem keptLines_cons_skip {l : String} (h1 : trimStr l ≠ START_MARKER)
    (h2 : trimStr l ≠ END_MARKER) (ls : List String) :
    keptLines true (l :: ls) = keptLines true ls := by
  simp [keptLines, h1, h2]

theorem keptLines_cons_keep {l : String} (h1 : trimStr l ≠ START_MARKER)
    (ls : List String) :
    keptLines false (l :: ls) = l :: keptLines false ls := by
  simp [keptLines, h1]

theorem keptLines_subset (ls : List String) :
    ∀ sk : Bool, ∀ l ∈ keptLines sk ls, l ∈ ls := by
  induction ls with
  | nil => intro sk l hl; simp [keptLines] at hl
  | cons x xs ih =>
    intro sk l hl
    by_cases h1 : trimStr x = START_MARKER
    · rw [keptLines_cons_start h1] at hl
      exact List.mem_cons_of_mem _ (ih true l hl)
    · cases sk with
      | true =>
        by_cases h2 : trimStr x = END_MARKER
        · rw [keptLines_cons_skip_end h1 h2] at hl
          exact List.mem_cons_of_mem _ (ih false l hl)
        · rw [keptLines_cons_skip h1 h2] at hl
          exact List.mem_cons_of_mem _ (ih true l hl)
      | false =>
        rw [keptLines_cons_keep h1] at hl
        rcases List.mem_cons.mp hl with h3 | h3
        · exact h3 ▸ List.mem_cons_self ..
        · exact List.mem_cons_of_mem _ (ih false l h3)

theorem keptLines_no_start (ls : List String) :
    ∀ sk : Bool, ∀ l ∈ keptLines sk ls, trimStr l ≠ START_MARKER := by
  induction ls with
  | nil => intro sk l hl; simp [keptLines] at hl
  | cons x xs ih =>
    intro sk l hl
    by_cases h1 : trimStr x = START_MARKER
    · rw [keptLines_cons_start h1] at hl
      exact ih true l hl
    · cases sk with
      | true =>
        by_cases h2 : trimStr x = END_MARKER
        · rw [keptLines_cons_skip_end h1 h2] at hl
          exact ih false l hl
        · rw [keptLines_cons_skip h1 h2] at hl
          exact ih true l hl
      | false =>
        rw [keptLines_cons_keep h1] at hl
        rcases List.mem_cons.mp hl with h3 | h3
        · exact h3 ▸ h1
        · exact ih false l h3

theorem keptLines_append (A B : List String)
    (hA : ∀ l ∈ A, trimStr l ≠ START_MARKER) :
    keptLines false (A ++ B) = A ++ keptLines false B := by
  induction A with
  | nil => simp
  | cons x xs ih =>
    have hx := hA x (List.mem_cons_self ..)
    rw [List.cons_append, keptLines_cons_keep hx,
      ih (fun l hl => hA l (List.mem_cons_of_mem _ hl)), List.cons_append]

theorem keptLines_true_nil (M : List String)
    (hM : ∀ l ∈ M, trimStr l ≠ END_MARKER) :
    keptLines true M = [] := by
  induction M with
  | nil => rfl
  | cons x xs ih =>
    have hx := hM x (List.mem_cons_self ..)
    have hrest := fun l hl => hM l (List.mem_cons_of_mem _ hl)
    by_cases h1 : trimStr x = START_MARKER
    · rw [keptLines_cons_start h1]; exact ih hrest
    · rw [keptLines_cons_skip h1 hx]; exact ih hrest

theorem dropWhile_dropWhile {α : Type} (p : α → Bool) (l : List α) :
    (l.dropWhile p).dropWhile p = l.dropWhile p := by
  induction l with
  | nil => rfl
  | cons a as ih =>
    by_cases h : p a
    · simp [List.dropWhile_cons, h, ih]
    · simp [List.dropWhile_cons, h]

theorem dropTrailingBlanks_idem (ls : List String) :
    dropTrailingBlanks (dropTrailingBlanks ls) = dropTrailingBlanks ls := by
  unfold dropTrailingBlanks
  rw [List.reverse_reverse, dropWhile_dropWhile]

theorem dropTrailingBlanks_append_blank (X : List String) {l : String}
    (h : isBlank l = true) :
    dropTrailingBlanks (X ++ [l]) = dropTrailingBlanks X := by
  unfold dropTrailingBlanks
  have h2 : (X ++ [l]).reverse = l :: X.reverse := by simp
  rw [h2, List.dropWhile_cons_of_pos h]

theorem dropTrailingBlanks_subset (ls : List String) :
    ∀ l ∈ dropTrailingBlanks ls, l ∈ ls := by
  intro l hl
  unfold dropTrailingBlanks at hl
  rw [List.mem_reverse] at hl
  have h2 := (List.dropWhile_sublist (p := isBlank) (l := ls.reverse)).subset hl
  rwa [List.mem_reverse] at h2

/-- Lines of a merged config: the kept current lines, a blank
separator when any were kept, then the lines of the trimmed block. -/
theorem buildMerged_lines (K : List String) (b : String)
    (hlf : ∀ l ∈ K, '\n' ∉ l.data)
    (hcr : ∀ l ∈ K, l.data.getLast? ≠ some '\r') :
    rustLines (buildMerged K b) =
      K ++ (if K.isEmpty then ([] : List String) else [""]) ++
        rustLines (rustTrimEnd b ++ "\n") := by
  cases K with
  | nil =>
    have h0 : buildMerged [] b = rustTrimEnd b ++ "\n" := by
      unfold buildMerged
      simp
    rw [h0]
    simp [String.append_assoc]
  | cons k ks =>
    have hassoc : buildMerged (k :: ks) b =
        joinSep "\n" (k :: ks) ++ "\n" ++ ("" ++ "\n" ++ (rustTrimEnd b ++ "\n")) := by
      unfold buildMerged
      simp only [List.isEmpty_cons, Bool.false_eq_true, if_false]
      apply String.ext
      simp [String.data_append, List.append_assoc,
        show ("\n\n" : String).data = ['\n', '\n'] from rfl,
        show ("\n" : String).data = ['\n'] from rfl,
        show ("" : String).data = ([] : List Char) from rfl]
    rw [hassoc,
      rustLines_join (k :: ks) (by simp) hlf hcr _,
      rustLines_cons "" _ (by simp) (by simp)]
    simp

end Sshpod

namespace Sshpod

/-- Idempotence of re-merging onto a merged config, generalized over
the kept lines. -/
theorem buildMerged_idem (K : List String) (b : String)
    (hlf : ∀ l ∈ K, '\n' ∉ l.data)
    (hcr2 : ∀ l ∈ K, l.data.getLast? ≠ some '\r')
    (hnostart : ∀ l ∈ K, trimStr l ≠ START_MARKER)
    (hKfix : dropTrailingBlanks K = K)
    (hb : keptLines false (rustLines (rustTrimEnd b ++ "\n")) = []) :
    merge_config (buildMerged K b) b = buildMerged K b := by
  unfold merge_config
  rw [buildMerged_lines K b hlf hcr2]
  cases K with
  | nil =>
    simp only [List.isEmpty_nil, if_true, List.nil_append]
    rw [hb]
    rfl
  | cons k ks =>
    simp only [List.isEmpty_cons, Bool.false_eq_true, if_false]
    rw [List.append_assoc,
      keptLines_append (k :: ks) ([""] ++ rustLines (rustTrimEnd b ++ "\n")) hnostart,
      show ([""] ++ rustLines (rustTrimEnd b ++ "\n")) =
        "" :: rustLines (rustTrimEnd b ++ "\n") from rfl,
      keptLines_cons_keep (by decide), hb,
      show ("" :: ([] : List String)) = [""] from rfl,
      dropTrailingBlanks_append_blank _ (by decide), hKfix]

theorem countRuns_zero_of_short (pat X : List String) (h : X.length < pat.length) :
    countRuns pat X = 0 := by
  induction X with
  | nil =>
    have h2 : ¬ pat.isEmpty = true := by
      cases pat with
      | nil => simp at h
      | cons p ps => simp
    simp [countRuns, h2]
  | cons l ls ih =>
    have h1 : pat.isPrefixOf (l :: ls) = false := by
      by_contra hcon
      rw [Bool.not_eq_false, List.isPrefixOf_iff_prefix] at hcon
      have h2 := hcon.length_le
      simp only [List.length_cons] at h2 h
      omega
    have h3 : ls.length < pat.length := by
      simp only [List.length_cons] at h
      omega
    simp [countRuns, h1, ih h3]

/-- A non-empty pattern occurs exactly once in `pre ++ pattern` when no
line of `pre` equals the pattern's first line. -/
theorem countRuns_eq_one (ph : String) (pt pre : List String)
    (hpre : ∀ l ∈ pre, l ≠ ph) :
    countRuns (ph :: pt) (pre ++ ph :: pt) = 1 := by
  induction pre with
  | nil =>
    have h1 : (ph :: pt).isPrefixOf (ph :: pt) = true := by
      rw [List.isPrefixOf_iff_prefix]
    have h2 : countRuns (ph :: pt) pt = 0 :=
      countRuns_zero_of_short _ _ (by simp)
    simp [countRuns, h1, h2]
  | cons l pre2 ih =>
    have h1 : (ph :: pt).isPrefixOf (l :: (pre2 ++ ph :: pt)) = false := by
      by_contra hcon
      rw [Bool.not_eq_false, List.isPrefixOf_iff_prefix] at hcon
      exact hpre l (List.mem_cons_self ..) (List.cons_prefix_cons.mp hcon).1.symm
    have ih2 := ih fun u hu => hpre u (List.mem_cons_of_mem _ hu)
    simp [countRuns, List.cons_append, h1, ih2]

/-- C5 (amended): `merge_config` is idempotent, and erasure-preserving
for the installed block, for every current config none of whose lines
retains a trailing carriage return and every block whose trimmed lines
the marker scanner consumes entirely (in particular the rendered
block).  Erasure: the merged result has exactly one start-marker line,
and the block's lines occur in it as a contiguous run exactly once. -/
theorem c5_merge_config (c b : String)
    (hcr : ∀ l ∈ rustLines c, l.data.getLast? ≠ some '\r')
    (hb : keptLines false (rustLines (rustTrimEnd b ++ "\n")) = []) :
    merge_config (merge_config c b) b = merge_config c b ∧
    (rustLines (merge_config c render_block)).countP
        (fun l => trimStr l == START_MARKER) = 1 ∧
    countRuns (rustLines (rustTrimEnd render_block ++ "\n"))
        (rustLines (merge_config c render_block)) = 1 := by
  have hsub : ∀ l ∈ dropTrailingBlanks (keptLines false (rustLines c)),
      l ∈ rustLines c := fun l hl =>
    keptLines_subset _ false l (dropTrailingBlanks_subset _ l hl)
  have hlf : ∀ l ∈ dropTrailingBlanks (keptLines false (rustLines c)),
      '\n' ∉ l.data := fun l hl => rustLines_no_lf c l (hsub l hl)
  have hcr2 : ∀ l ∈ dropTrailingBlanks (keptLines false (rustLines c)),
      l.data.getLast? ≠ some '\r' := fun l hl => hcr l (hsub l hl)
  have hnostart : ∀ l ∈ dropTrailingBlanks (keptLines false (rustLines c)),
      trimStr l ≠ START_MARKER := fun l hl =>
    keptLines_no_start _ false l (dropTrailingBlanks_subset _ l hl)
  refine ⟨?_, ?_, ?_⟩
  · exact buildMerged_idem _ b hlf hcr2 hnostart (dropTrailingBlanks_idem _) hb
  · rw [show merge_config c render_block =
        buildMerged (dropTrailingBlanks (keptLines false (rustLines c)))
          render_block from rfl,
      buildMerged_lines _ render_block hlf hcr2,
      List.countP_append, List.countP_append]
    have hK0 : (dropTrailingBlanks (keptLines false (rustLines c))).countP
        (fun l => trimStr l == START_MARKER) = 0 :=
      List.countP_eq_zero.mpr fun l hl hpa =>
        hnostart l hl (by simpa using hpa)
    have hguard : (if (dropTrailingBlanks (keptLines false (rustLines c))).isEmpty
        then ([] : List String) else [""]).countP
          (fun l => trimStr l == START_MARKER) = 0 := by
      split
      · rfl
      · decide
    have hBL : (rustLines (rustTrimEnd render_block ++ "\n")).countP
        (fun l => trimStr l == START_MARKER) = 1 := by decide
    omega
  · rw [show merge_config c render_block =
        buildMerged (dropTrailingBlanks (keptLines false (rustLines c)))
          render_block from rfl,
      buildMerged_lines _ render_block hlf hcr2]
    cases hBLe : rustLines (rustTrimEnd render_block ++ "\n") with
    | nil => exact absurd hBLe (by decide)
    | cons ph pt =>
      have hph : ph = START_MARKER := by
        have h2 := congrArg List.head? hBLe
        rw [show (rustLines (rustTrimEnd render_block ++ "\n")).head? =
          some START_MARKER from by decide] at h2
        simp only [List.head?_cons] at h2
        exact (Option.some.inj h2).symm
      subst hph
      apply countRuns_eq_one
      intro l hl
      rcases List.mem_append.mp hl with h1 | h1
      · intro he
        apply hnostart l h1
        rw [he]
        decide
      · intro he
        revert h1
        split
        · intro h1; simp at h1
        · intro h1
          have h3 : l = "" := by simpa using h1
          rw [h3] at he
          exact absurd he (by decide)

/-- Witness for C5 at a concrete config and the rendered block. -/
theorem c5_merge_config_witness :
    merge_config (merge_config "Host work\n  User me" render_block) render_block =
      merge_config "Host work\n  User me" render_block ∧
    (rustLines (merge_config "Host work\n  User me" render_block)).countP
        (fun l => trimStr l == START_MARKER) = 1 ∧
    countRuns (rustLines (rustTrimEnd render_block ++ "\n"))
        (rustLines (merge_config "Host work\n  User me" render_block)) = 1 :=
  c5_merge_config "Host work\n  User me" render_block (by decide) (by decide)

/-- C5 counterexample to the claim as stated: idempotence fails for a
block that is not marker-delimited (`"hello"`), and even for the real
rendered block when the current config ends in a bare carriage
return. -/
theorem c5_counterexample :
    merge_config (merge_config "x" "hello") "hello" ≠ merge_config "x" "hello" ∧
    merge_config (merge_config "x\r" render_block) render_block ≠
      merge_config "x\r" render_block := by
  constructor <;> decide

/-- C10: when the current config has a line trimming to the start
marker with no later line trimming to the end marker, everything from
the start marker to the end of the input is dropped: the merged result
is built from the lines before the marker alone. -/
theorem c10_unterminated_marker (c b : String) (L M : List String) (s : String)
    (hdecomp : rustLines c = L ++ s :: M)
    (hs : trimStr s = START_MARKER)
    (hL : ∀ l ∈ L, trimStr l ≠ START_MARKER)
    (hM : ∀ l ∈ M, trimStr l ≠ END_MARKER) :
    merge_config c b = buildMerged (dropTrailingBlanks L) b := by
  unfold merge_config
  rw [hdecomp, keptLines_append L (s :: M) hL, keptLines_cons_start hs,
    keptLines_true_nil M hM, List.append_nil]

/-- Witness for C10: content after an unterminated marker block is
dropped from the merge. -/
theorem c10_unterminated_marker_witness :
    merge_config "keep me\n# >>> sshpod start\nsecret tail" "B" =
      buildMerged (dropTrailingBlanks ["keep me"]) "B" :=
  c10_unterminated_marker "keep me\n# >>> sshpod start\nsecret tail" "B"
    ["keep me"] ["secret tail"] "# >>> sshpod start"
    (by decide) (by decide) (by decide) (by decide)

end Sshpod
